import Mathlib

/-!
Shallow embedding of the `dateformat` library (src/dateformat.py).

The library compiles a format specification string such as "YYYY-MM-DD hh:mm:ss"
into a `DateFormat` object holding a token sequence, a compiled regular
expression (the concatenation of one sub-pattern per token, anchored at both
ends, case-insensitive), a list of the tokens that own a capture group, and a
parse chain / format chain of handlers.

Modelling choices, all taken from the source:
  - Strings are lists of characters; the concrete regular expressions used by
    the catalog are embedded as an `Rx` syntax tree whose candidate semantics
    (`rxCands`) lists the (consumed, remaining) splits in exactly the order the
    Python backtracking engine tries them: alternation prefers the left branch,
    greedy repetition prefers longer matches, lazy repetition prefers shorter.
  - The whole-pattern match (`matchSeqEnd`) tries the candidates of each token
    in order and backtracks, exactly like the compiled `re` pattern.  The
    dollar anchor of Python also accepts a position just before one trailing
    newline character, which is reflected in the end-of-input test `pyEnd`.
  - `re.I` (case insensitivity) is reflected by comparing lowercased literal
    characters and by testing classes on the character and on both of its case
    foldings.
  - Machine floats in the source appear in `utcfromtimestamp` (timestamp
    division) and `FractionalSecond`; they are modelled with exact rational
    arithmetic plus the rounding mode the source exhibits on its documented
    test vectors (round-half-even for `utcfromtimestamp` and `round`,
    truncation for `int`).
-/

/-- Lowercase comparison used for case-insensitive literal matching. -/
def lcEq (a b : Char) : Bool := a.toLower == b.toLower

/-- Value of a string of decimal digits, like Python int() on a digit string. -/
def digitsToNat (l : List Char) : Nat :=
  l.foldl (fun a c => a * 10 + (c.toNat - 48)) 0

/-- Decimal digits of a number, most significant first: Python str() of a
nonnegative int.  The fuel only drives the recursion (the value shrinks by a
factor of ten each step, so a fuel of n + 1 is never exhausted). -/
def natCharsAux : Nat → Nat → List Char
  | 0, _ => []
  | fuel + 1, n =>
    if n < 10 then [Nat.digitChar n]
    else natCharsAux fuel (n / 10) ++ [Nat.digitChar (n % 10)]

def natChars (n : Nat) : List Char := natCharsAux (n + 1) n

/-- Zero padding to a given width, like the format spec 0>w on an int. -/
def padNum (w : Nat) (n : Nat) : List Char :=
  let ds := natChars n
  List.replicate (w - ds.length) '0' ++ ds

/-- Character classes appearing in the catalog regular expressions. -/
inductive Cls where
  | digit
  | word
  | space
  | range (lo hi : Char)
  | chars (cs : List Char)
  | union (a b : Cls)
  deriving DecidableEq, Repr

/-- Membership in a character class (case-sensitive part). -/
def Cls.mem : Cls → Char → Bool
  | .digit, c => c.isDigit
  | .word, c => c.isAlphanum || c == '_'
  | .space, c => c == ' ' || c == '\t' || c == '\n' || c == '\r' || c == '\x0b' || c == '\x0c'
  | .range lo hi, c => decide (lo ≤ c) && decide (c ≤ hi)
  | .chars cs, c => cs.contains c
  | .union a b, c => a.mem c || b.mem c

/-- Class membership under re.I: the character or either case folding. -/
def ciMem (cl : Cls) (c : Char) : Bool :=
  cl.mem c || cl.mem c.toLower || cl.mem c.toUpper

/-- Length of the maximal class-member run at the head of the input. -/
def runLen (cl : Cls) (cs : List Char) : Nat :=
  (cs.takeWhile (fun c => ciMem cl c)).length

/-- Syntax of the regular expressions used by the token catalog.
`repCls` is a greedy counted repetition of a character class; `plusLazyCls`
is a lazy one-or-more repetition of a class; `plusLazySeg` is the lazy
one-or-more repetition of the segment pattern used by the full-timezone-name
expression: a lazy counted class repetition followed by one separator
character. -/
inductive Rx where
  | eps
  | lit (c : Char)
  | cls (cl : Cls)
  | seq (a b : Rx)
  | alt (a b : Rx)
  | opt (a : Rx)
  | repCls (cl : Cls) (lo hi : Nat)
  | plusLazyCls (cl : Cls)
  | plusLazySeg (cl : Cls) (lo hi : Nat) (sep : Char)
  deriving DecidableEq, Repr

/-- One lazy segment of the full-timezone-name pattern: between lo and hi
class characters (preferring fewer) followed by the separator. -/
def segOnce (cl : Cls) (lo hi : Nat) (sep : Char) (cs : List Char) :
    List (List Char × List Char) :=
  let run := min hi (runLen cl cs)
  if run < lo then [] else
    ((List.range (run + 1 - lo)).map (fun i => lo + i)).filterMap fun k =>
      match cs.drop k with
      | x :: rest => if lcEq x sep then some (cs.take k ++ [x], rest) else none
      | [] => none

/-- Candidates of the lazy plus of a segment, preferring fewer segments.
Each segment consumes at least the separator, so the input length bounds the
number of segments and is used as fuel. -/
def segCands (cl : Cls) (lo hi : Nat) (sep : Char) : Nat → List Char →
    List (List Char × List Char)
  | 0, _ => []
  | fuel + 1, cs =>
    ((segOnce cl lo hi sep cs).map (fun p =>
      (p.1, p.2) :: (segCands cl lo hi sep fuel p.2).map
        (fun q => (p.1 ++ q.1, q.2)))).flatten

/-- All ways a regular expression can consume some characters from the head
of the input, as (consumed, remaining) pairs, listed in the order the Python
backtracking engine tries them. -/
def rxCands : Rx → List Char → List (List Char × List Char)
  | .eps, cs => [([], cs)]
  | .lit c, cs =>
    match cs with
    | [] => []
    | x :: rest => if lcEq x c then [([x], rest)] else []
  | .cls cl, cs =>
    match cs with
    | [] => []
    | x :: rest => if ciMem cl x then [([x], rest)] else []
  | .seq a b, cs =>
    ((rxCands a cs).map (fun p =>
      (rxCands b p.2).map (fun q => (p.1 ++ q.1, q.2)))).flatten
  | .alt a b, cs => rxCands a cs ++ rxCands b cs
  | .opt a, cs => rxCands a cs ++ [([], cs)]
  | .repCls cl lo hi, cs =>
    let run := min hi (runLen cl cs)
    if run < lo then [] else
      (List.range (run + 1 - lo)).map fun i =>
        (cs.take (run - i), cs.drop (run - i))
  | .plusLazyCls cl, cs =>
    (List.range (runLen cl cs)).map fun i => (cs.take (i + 1), cs.drop (i + 1))
  | .plusLazySeg cl lo hi sep, cs => segCands cl lo hi sep cs.length cs

/-- First defined element, in order: the first successful backtracking branch. -/
def firstSome {α : Type} : List (Option α) → Option α
  | [] => none
  | some a :: _ => some a
  | none :: rest => firstSome rest

/-- End-of-input test of the Python dollar anchor: end of string, or just
before one newline that is the last character. -/
def pyEnd (cs : List Char) : Bool := cs.isEmpty || cs == ['\n']

/-- End-of-input test demanding that the whole input has been consumed. -/
def exactEnd (cs : List Char) : Bool := cs.isEmpty

/-- Match a sequence of (owns-a-capture-group, sub-pattern) parts against the
input, returning the captured chunks of the group-owning parts in order, for
the first overall branch accepted by the end test.  This is the behaviour of
the compiled anchored pattern together with match.groups(). -/
def matchSeqEnd (endOk : List Char → Bool) :
    List (Bool × Rx) → List Char → Option (List (List Char))
  | [], cs => if endOk cs then some [] else none
  | (g, r) :: ps, cs =>
    firstSome ((rxCands r cs).map (fun p =>
      (matchSeqEnd endOk ps p.2).map (fun gs => if g then p.1 :: gs else gs)))

/-- Leftmost split of a string around the first occurrence of a pattern:
returns (before, after) with the string equal to before ++ pat ++ after.
This is Python str.partition restricted to the found case. -/
def splitFirst (pat : List Char) : List Char → Option (List Char × List Char)
  | [] => if pat.isEmpty then some ([], []) else none
  | c :: rest =>
    if pat.isPrefixOf (c :: rest) then some ([], (c :: rest).drop pat.length)
    else (splitFirst pat rest).map (fun p => (c :: p.1, p.2))

/-- Date components assigned directly from a captured integer. -/
inductive DatePart where
  | year
  | month
  | day
  | hour
  | minute
  | second
  deriving DecidableEq, Repr

/-- The three UTC-offset layouts and their value slicings. -/
inductive OffsetVariant where
  | hhmm
  | hhColonMm
  | hhOnly
  deriving DecidableEq, Repr

/-- Behaviour variant of a catalog token, mirroring the DateFormatPart class
hierarchy of the source: IgnorePart, DayOfMonthSuffixPart, WeekdayNamePart and
ShortWeekdayNamePart (render tables), SimplePart, HourPart, ShortYearPart,
MonthNamePart and ShortMonthNamePart (name tables), MicrosecondPart,
FractionalSecond, TimestampPart, AmPmPart, UTCOffsetPart, NamedTimezeonePart. -/
inductive PartKind where
  | ignorePart (formatValue : List Char)
  | daySuffix
  | weekdayName (fromNum : List String)
  | simple (datepart : DatePart)
  | hourPart
  | shortYear
  | monthName (toNum : List (String × Nat)) (fromNum : List String)
  | microPart (multiplier : Nat)
  | fracSecond
  | timestampPart (divisor : Nat)
  | amPm
  | utcOffset (variant : OffsetVariant)
  | namedTz
  deriving DecidableEq, Repr

/-- A catalog token: the literal fragment it matches inside a format
specification, the source text of its value sub-pattern, the embedded
semantics of that sub-pattern, and its behaviour variant.  HourPart passes no
pattern to its base constructor (its pattern depends on the 12/24-hour mode),
so its re_str here is empty and its pattern comes from Token.rxOf and
parser_re_str. -/
structure Token where
  format_str : List Char
  re_str : String
  rx : Rx
  kind : PartKind
  deriving DecidableEq, Repr

/-- PARSER_RE_CONTAINS_GROUP: false exactly for IgnorePart and its
subclasses (weekday names, the day-of-month suffix, separators). -/
def Token.containsGroup (t : Token) : Bool :=
  match t.kind with
  | .ignorePart _ => false
  | .daySuffix => false
  | .weekdayName _ => false
  | _ => true

def RE_0_TO_60 : String := "[0-6]?[0-9]"
def RE_00_TO_31 : String := "(?:[0-2][0-9])|(?:3[0-1])"
def RE_0_TO_31 : String := "(?:[0-2]?[0-9])|(?:3[0-1])"
def RE_0_TO_12 : String := "(?:0?[0-9])|(?:1[0-2])"
def RE_00_TO_12 : String := "(?:0[0-9])|(?:1[0-2])"
def RE_0_TO_24 : String := "(?:[0-1]?[0-9])|(?:2[0-4])"

def rx_0_to_60 : Rx := .seq (.opt (.cls (.range '0' '6'))) (.cls .digit)
def rx_00_to_31 : Rx :=
  .alt (.seq (.cls (.range '0' '2')) (.cls .digit)) (.seq (.lit '3') (.cls (.range '0' '1')))
def rx_0_to_31 : Rx :=
  .alt (.seq (.opt (.cls (.range '0' '2'))) (.cls .digit)) (.seq (.lit '3') (.cls (.range '0' '1')))
def rx_0_to_12 : Rx :=
  .alt (.seq (.opt (.lit '0')) (.cls .digit)) (.seq (.lit '1') (.cls (.range '0' '2')))
def rx_00_to_12 : Rx :=
  .alt (.seq (.lit '0') (.cls .digit)) (.seq (.lit '1') (.cls (.range '0' '2')))
def rx_0_to_24 : Rx :=
  .alt (.seq (.opt (.cls (.range '0' '1'))) (.cls .digit)) (.seq (.lit '2') (.cls (.range '0' '4')))

/-- Greedy counted repetition of the digit class, the backslash-d patterns. -/
def rxDigits (lo hi : Nat) : Rx := .repCls .digit lo hi

/-- The month name tables of MonthNamePart: calendar.month_name lowered. -/
def monthNameToNum : List (String × Nat) :=
  [("january", 1), ("february", 2), ("march", 3), ("april", 4), ("may", 5), ("june", 6),
   ("july", 7), ("august", 8), ("september", 9), ("october", 10), ("november", 11),
   ("december", 12)]

def monthNameFromNum : List String :=
  ["", "January", "February", "March", "April", "May", "June", "July", "August",
   "September", "October", "November", "December"]

/-- ShortMonthNamePart tables: calendar.month_abbr lowered, plus the 4-letter
full names june and july accepted on parse. -/
def monthAbbrToNum : List (String × Nat) :=
  [("jan", 1), ("feb", 2), ("mar", 3), ("apr", 4), ("may", 5), ("jun", 6), ("jul", 7),
   ("aug", 8), ("sep", 9), ("oct", 10), ("nov", 11), ("dec", 12), ("june", 6), ("july", 7)]

def monthAbbrFromNum : List String :=
  ["", "Jan", "Feb", "Mar", "Apr", "May", "Jun", "Jul", "Aug", "Sep", "Oct", "Nov", "Dec"]

def dayNameFromNum : List String :=
  ["Monday", "Tuesday", "Wednesday", "Thursday", "Friday", "Saturday", "Sunday"]

def dayAbbrFromNum : List String :=
  ["Mon", "Tue", "Wed", "Thu", "Fri", "Sat", "Sun"]

def rxWeekdayFull : Rx :=
  .seq (.cls (.chars ['M', 'S', 'T', 'F', 'W'])) (.repCls .word 5 8)
def rxWeekdayShort : Rx :=
  .seq (.cls (.chars ['M', 'S', 'T', 'F', 'W'])) (.repCls .word 2 2)
def rxMonthNameFull : Rx :=
  .seq (.cls (.chars ['A', 'D', 'F', 'J', 'M', 'N', 'O', 'S'])) (.repCls .word 2 8)
def rxMonthNameShort : Rx :=
  .seq (.cls (.chars ['A', 'D', 'F', 'J', 'M', 'N', 'O', 'S'])) (.repCls .word 2 3)

def rxSignCls : Cls := .chars ['+', '-']

def rxOffsetHHMM : Rx := .seq (.cls rxSignCls) (rxDigits 4 4)
def rxOffsetHHcMM : Rx :=
  .seq (.cls rxSignCls) (.seq (rxDigits 2 2) (.seq (.lit ':') (rxDigits 2 2)))
def rxOffsetHH : Rx := .seq (.cls rxSignCls) (rxDigits 2 2)

def rxAmPm : Rx := .alt (.seq (.lit 'a') (.lit 'm')) (.seq (.lit 'p') (.lit 'm'))

def rxDaySuffix : Rx :=
  .alt (.seq (.lit 's') (.lit 't'))
    (.alt (.seq (.lit 'n') (.lit 'd'))
      (.alt (.seq (.lit 'r') (.lit 'd')) (.seq (.lit 't') (.lit 'h'))))

/-- FULL_TZ_NAME_RE: lazily repeated name/slash segments, then a final name of
3 to 20 letters, hyphens or underscores, then an optional sign and up to two
digits. -/
def rxFullTz : Rx :=
  .seq (.plusLazySeg (.union (.range 'A' 'Z') (.chars ['_'])) 2 12 '/')
    (.seq (.repCls (.union (.range 'A' 'Z') (.chars ['-', '_'])) 3 20)
      (.seq (.opt (.cls (.chars ['+', '-']))) (.repCls .digit 0 2)))

/-- SHORT_TZ_NAME_RE: one capital then up to 8 capitals, signs, underscores
or digits. -/
def rxShortTz : Rx :=
  .seq (.repCls (.range 'A' 'Z') 1 1)
    (.repCls (.union (.range 'A' 'Z') (.union (.chars ['+', '-', '_']) .digit)) 0 8)

def rxNamedTz : Rx := .alt rxFullTz rxShortTz

def namedTzReStr : String :=
  "(?:[A-Z_]\x7b2,12\x7d?/)+?[A-Z\\-_]\x7b3,20\x7d[+-]?\\d\x7b0,2\x7d|[A-Z]\x7b1\x7d[A-Z+\\-_\\d]\x7b0,8\x7d"

/-- The ordered token catalog FORMAT_STR_TOKENS.  Order is the declaration
order of the source list; the named-timezone entries come from iterating a
Python set whose order is unspecified, fixed here in one arbitrary order (no
entry of the set is a substring of another, so tokenization results do not
depend on that order). -/
def FORMAT_STR_TOKENS : List Token := [
  { format_str := "UNIX_TIMESTAMP".data, re_str := "\\d\x7b1,10\x7d",
    rx := rxDigits 1 10, kind := .timestampPart 1 },
  { format_str := "UNIX_MILLISECONDS".data, re_str := "\\d\x7b1,13\x7d",
    rx := rxDigits 1 13, kind := .timestampPart 1000 },
  { format_str := "UNIX_MICROSECONDS".data, re_str := "\\d\x7b1,16\x7d",
    rx := rxDigits 1 16, kind := .timestampPart 1000000 },
  { format_str := "UNIX_NANOSECONDS".data, re_str := "\\d\x7b1,19\x7d",
    rx := rxDigits 1 19, kind := .timestampPart 1000000000 },
  { format_str := "+HHMM".data, re_str := "[\\+\\-]\\d\x7b4\x7d",
    rx := rxOffsetHHMM, kind := .utcOffset .hhmm },
  { format_str := "+HH:MM".data, re_str := "[\\+\\-]\\d\x7b2\x7d:\\d\x7b2\x7d",
    rx := rxOffsetHHcMM, kind := .utcOffset .hhColonMm },
  { format_str := "+HH".data, re_str := "[\\+\\-]\\d\x7b2\x7d",
    rx := rxOffsetHH, kind := .utcOffset .hhOnly },
  { format_str := "Dddddd".data, re_str := "[MSTFW]\\w\x7b5,8\x7d",
    rx := rxWeekdayFull, kind := .weekdayName dayNameFromNum },
  { format_str := "Ddddd".data, re_str := "[MSTFW]\\w\x7b5,8\x7d",
    rx := rxWeekdayFull, kind := .weekdayName dayNameFromNum },
  { format_str := "Ddd".data, re_str := "[MSTFW]\\w\x7b2\x7d",
    rx := rxWeekdayShort, kind := .weekdayName dayAbbrFromNum },
  { format_str := "[MM]".data, re_str := RE_00_TO_12,
    rx := rx_00_to_12, kind := .simple .month },
  { format_str := "[DD]".data, re_str := RE_00_TO_31,
    rx := rx_00_to_31, kind := .simple .day },
  { format_str := "DD".data, re_str := RE_0_TO_31,
    rx := rx_0_to_31, kind := .simple .day },
  { format_str := "MMMMM".data, re_str := "[ADFJMNOS]\\w\x7b2,8\x7d",
    rx := rxMonthNameFull, kind := .monthName monthNameToNum monthNameFromNum },
  { format_str := "MMM".data, re_str := "[ADFJMNOS]\\w\x7b2,3\x7d",
    rx := rxMonthNameShort, kind := .monthName monthAbbrToNum monthAbbrFromNum },
  { format_str := "MM".data, re_str := RE_0_TO_12,
    rx := rx_0_to_12, kind := .simple .month },
  { format_str := "YYYY".data, re_str := "\\d\x7b4\x7d",
    rx := rxDigits 4 4, kind := .simple .year },
  { format_str := "YY".data, re_str := "\\d\x7b2\x7d",
    rx := rxDigits 2 2, kind := .shortYear },
  { format_str := "hh".data, re_str := "",
    rx := .eps, kind := .hourPart },
  { format_str := "mm".data, re_str := RE_0_TO_60,
    rx := rx_0_to_60, kind := .simple .minute },
  { format_str := "ss".data, re_str := RE_0_TO_60,
    rx := rx_0_to_60, kind := .simple .second },
  { format_str := "SSSSSS".data, re_str := "\\d\x7b6\x7d",
    rx := rxDigits 6 6, kind := .microPart 1 },
  { format_str := "SSSS".data, re_str := "\\d\x7b4\x7d",
    rx := rxDigits 4 4, kind := .microPart 100 },
  { format_str := "SSS".data, re_str := "\\d\x7b3\x7d",
    rx := rxDigits 3 3, kind := .microPart 1000 },
  { format_str := "SS".data, re_str := "\\d\x7b2\x7d",
    rx := rxDigits 2 2, kind := .microPart 10000 },
  { format_str := "S".data, re_str := "\\d\x7b1,9\x7d",
    rx := rxDigits 1 9, kind := .fracSecond },
  { format_str := "AM".data, re_str := "am|pm", rx := rxAmPm, kind := .amPm },
  { format_str := "Am".data, re_str := "am|pm", rx := rxAmPm, kind := .amPm },
  { format_str := "am".data, re_str := "am|pm", rx := rxAmPm, kind := .amPm },
  { format_str := "PM".data, re_str := "am|pm", rx := rxAmPm, kind := .amPm },
  { format_str := "Pm".data, re_str := "am|pm", rx := rxAmPm, kind := .amPm },
  { format_str := "pm".data, re_str := "am|pm", rx := rxAmPm, kind := .amPm },
  { format_str := " ".data, re_str := "\\s+?",
    rx := .plusLazyCls .space, kind := .ignorePart " ".data },
  { format_str := "of".data, re_str := "of",
    rx := .seq (.lit 'o') (.lit 'f'), kind := .ignorePart "of".data },
  { format_str := "st".data, re_str := "(?:st|nd|rd|th)",
    rx := rxDaySuffix, kind := .daySuffix },
  { format_str := "␣".data, re_str := "[T ]",
    rx := .cls (.chars ['T', ' ']), kind := .ignorePart "T".data },
  { format_str := "UTC".data, re_str := namedTzReStr, rx := rxNamedTz, kind := .namedTz },
  { format_str := "GMT".data, re_str := namedTzReStr, rx := rxNamedTz, kind := .namedTz },
  { format_str := "Europe/London".data, re_str := namedTzReStr, rx := rxNamedTz, kind := .namedTz },
  { format_str := "Zulu".data, re_str := namedTzReStr, rx := rxNamedTz, kind := .namedTz },
  { format_str := ":".data, re_str := ":", rx := .lit ':', kind := .ignorePart ":".data },
  { format_str := "/".data, re_str := "/", rx := .lit '/', kind := .ignorePart "/".data },
  { format_str := "-".data, re_str := "\\-", rx := .lit '-', kind := .ignorePart "-".data },
  { format_str := ".".data, re_str := "\\.", rx := .lit '.', kind := .ignorePart ".".data },
  { format_str := ",".data, re_str := ",", rx := .lit ',', kind := .ignorePart ",".data },
  { format_str := "T".data, re_str := "T", rx := .lit 'T', kind := .ignorePart "T".data },
  { format_str := "Z".data, re_str := "Z", rx := .lit 'Z', kind := .ignorePart "Z".data },
  { format_str := "(".data, re_str := "\\(", rx := .lit '(', kind := .ignorePart "(".data },
  { format_str := ")".data, re_str := "\\)", rx := .lit ')', kind := .ignorePart ")".data }]

/-- First catalog entry whose format fragment occurs in the given string,
with the before/after split: the loop body of tokenize. -/
def firstMatch : List Token → List Char → Option (Token × List Char × List Char)
  | [], _ => none
  | t :: ts, bit =>
    if t.format_str.isEmpty then firstMatch ts bit
    else
      match splitFirst t.format_str bit with
      | some p => some (t, p.1, p.2)
      | none => firstMatch ts bit

/-- The recursive spec tokenizer.  The source recurses on the strictly
shorter before/after parts of the partition; here the recursion is driven by
a fuel bounded below by the string length, which the strict-shrinking
argument shows is never exhausted (theorem for claim C7). -/
def tokenizeFuel : Nat → List Char → Except (List Char) (List Token)
  | 0, bit => .error bit
  | fuel + 1, bit =>
    match firstMatch FORMAT_STR_TOKENS bit with
    | some (t, before, after) =>
      match (if before.isEmpty then .ok [] else tokenizeFuel fuel before) with
      | .error e => .error e
      | .ok pre =>
        match (if after.isEmpty then .ok [] else tokenizeFuel fuel after) with
        | .error e => .error e
        | .ok post => .ok (pre ++ t :: post)
    | none => if bit.isEmpty then .ok [] else .error bit

/-- DateFormat._tokenize_spec applied to the whole specification. -/
def tokenizeSpec (bit : List Char) : Except (List Char) (List Token) :=
  tokenizeFuel (bit.length + 1) bit

def Token.isAmPm (t : Token) : Bool :=
  match t.kind with
  | .amPm => true
  | _ => false

/-- A compiled DateFormat: the specification, its token sequence, and the
12/24-hour mode (inferred as 24-hour exactly when no AM/PM token is present,
unless forced by the constructor argument). -/
structure DateFormat where
  spec_str : List Char
  tokens : List Token
  is_24hour : Bool
  deriving DecidableEq, Repr

/-- DateFormat construction: tokenize the spec and fix the hour mode. -/
def DateFormat.make (spec : String) (is24hour : Option Bool) :
    Except (List Char) DateFormat := do
  let tokens ← tokenizeSpec spec.data
  pure { spec_str := spec.data, tokens := tokens,
         is_24hour :=
           match is24hour with
           | none => !(tokens.any Token.isAmPm)
           | some b => b }

/-- Sub-pattern of one token in the 12/24-hour mode of the format: HourPart
chooses its range by mode, every other token uses its stored pattern. -/
def Token.rxOf (t : Token) (is24 : Bool) : Rx :=
  match t.kind with
  | .hourPart => if is24 then rx_0_to_24 else rx_0_to_12
  | _ => t.rx

/-- The compiled pattern as the ordered (owns-group, sub-pattern) parts. -/
def DateFormat.parts (df : DateFormat) : List (Bool × Rx) :=
  df.tokens.map (fun t => (t.containsGroup, t.rxOf df.is_24hour))

/-- re_tokens: the tokens owning a capture group, in order. -/
def DateFormat.re_tokens (df : DateFormat) : List Token :=
  df.tokens.filter Token.containsGroup

/-- Running the compiled anchored pattern on an input: the groups of the
match, if any. -/
def DateFormat.parserMatch (df : DateFormat) (data : List Char) :
    Option (List (List Char)) :=
  matchSeqEnd pyEnd df.parts data

/-- Total helper extracting the compiled DateFormat of a specification known
to tokenize (falls back to an empty token list otherwise; the concrete
specifications used below are each proved to construct successfully). -/
def mkDF (spec : String) (is24hour : Option Bool) : DateFormat :=
  match DateFormat.make spec is24hour with
  | .ok df => df
  | .error _ => { spec_str := spec.data, tokens := [], is_24hour := true }

/-- Timezone information attached to a parsed or formatted value: either a
fixed offset in whole minutes (datetime.timezone of a timedelta) or a named
zone handle from the external provider (pytz.timezone). -/
inductive TzInfo where
  | utcOffset (minutes : Int)
  | zone (name : String)
  deriving DecidableEq, Repr

/-- A datetime.datetime value. -/
structure DateTime where
  year : Nat
  month : Nat
  day : Nat
  hour : Nat
  minute : Nat
  second : Nat
  microsecond : Nat
  tzinfo : Option TzInfo
  deriving DecidableEq, Repr

/-- The parse context dictionary: year/month/day are always present (seeded
from the current date), the remaining keys are optional and default through
the datetime constructor defaults. -/
structure ParseContext where
  year : Nat
  month : Nat
  day : Nat
  hour : Option Nat
  minute : Option Nat
  second : Option Nat
  microsecond : Option Nat
  is_pm : Option Bool
  tzinfo : Option TzInfo
  deriving DecidableEq, Repr

/-- The current local date used to seed the parse context. -/
structure Today where
  year : Nat
  month : Nat
  day : Nat
  deriving DecidableEq, Repr

def initContext (today : Today) : ParseContext :=
  { year := today.year, month := today.month, day := today.day,
    hour := none, minute := none, second := none, microsecond := none,
    is_pm := none, tzinfo := none }

inductive ParseError where
  | noMatch
  | invalidDate
  | keyError
  | attrError
  deriving DecidableEq, Repr

def isLeapYear (y : Nat) : Bool :=
  y % 4 == 0 && (y % 100 != 0 || y % 400 == 0)

def daysInMonth (y m : Nat) : Nat :=
  if m == 2 then (if isLeapYear y then 29 else 28)
  else if m == 4 || m == 6 || m == 9 || m == 11 then 30
  else 31

/-- The validating datetime.datetime constructor applied to the context,
with the constructor defaults for the absent keys. -/
def mkDatetime (ctx : ParseContext) : Except ParseError DateTime :=
  let hour := ctx.hour.getD 0
  let minute := ctx.minute.getD 0
  let second := ctx.second.getD 0
  let microsecond := ctx.microsecond.getD 0
  if 1 ≤ ctx.year ∧ ctx.year ≤ 9999 ∧ 1 ≤ ctx.month ∧ ctx.month ≤ 12 ∧
      1 ≤ ctx.day ∧ ctx.day ≤ daysInMonth ctx.year ctx.month ∧
      hour ≤ 23 ∧ minute ≤ 59 ∧ second ≤ 59 ∧ microsecond ≤ 999999 then
    .ok { year := ctx.year, month := ctx.month, day := ctx.day, hour := hour,
          minute := minute, second := second, microsecond := microsecond,
          tzinfo := ctx.tzinfo }
  else .error .invalidDate

/-- Civil date of a day count relative to 1970-01-01 (proleptic Gregorian),
the decomposition performed by datetime.utcfromtimestamp. -/
def civilFromDays (z0 : Int) : Int × Nat × Nat :=
  let z := z0 + 719468
  let era := z.ediv 146097
  let doe := (z.emod 146097).toNat
  let yoe := (doe - doe / 1460 + doe / 36524 - doe / 146096) / 365
  let doy := doe - (365 * yoe + yoe / 4 - yoe / 100)
  let mp := (5 * doy + 2) / 153
  let d := doy - (153 * mp + 2) / 5 + 1
  let m := if mp < 10 then mp + 3 else mp - 9
  ((yoe : Int) + era * 400 + (if m ≤ 2 then 1 else 0), m, d)

/-- Day count of a civil date relative to 1970-01-01. -/
def daysFromCivil (y : Int) (m d : Nat) : Int :=
  let yAdj := y - (if m ≤ 2 then 1 else 0)
  let era := yAdj.ediv 400
  let yoe := (yAdj.emod 400).toNat
  let doy := (153 * (if m > 2 then m - 3 else m + 9) + 2) / 5 + d - 1
  let doe := yoe * 365 + yoe / 4 - yoe / 100 + doy
  era * 146097 + (doe : Int) - 719468

/-- Round to the nearest integer, ties to even: the rounding of Python round
and of the float-to-microseconds step inside utcfromtimestamp, computed on
the reduced numerator and positive denominator of the rational. -/
def roundHalfEven (q : ℚ) : Int :=
  let n := q.num
  let d : Int := (q.den : Int)
  let f := n.fdiv d
  let rem := n - f * d
  if 2 * rem < d then f
  else if d < 2 * rem then f + 1
  else if f % 2 = 0 then f else f + 1

/-- Truncation toward zero: Python int() on a number. -/
def ratTrunc (q : ℚ) : Int :=
  let m : Nat := q.num.natAbs / q.den
  if q.num < 0 then -(m : Int) else (m : Int)

/-- datetime.utcfromtimestamp on an exact microsecond count since the epoch. -/
def utcFromTimestampMicros (us : Int) : DateTime :=
  let secs := us.ediv 1000000
  let micro := (us.emod 1000000).toNat
  let days := secs.ediv 86400
  let rem := (secs.emod 86400).toNat
  let c := civilFromDays days
  { year := c.1.toNat, month := c.2.1, day := c.2.2, hour := rem / 3600,
    minute := rem % 3600 / 60, second := rem % 60, microsecond := micro,
    tzinfo := none }

def strLower (l : List Char) : List Char := l.map Char.toLower

def lookupName (table : List (String × Nat)) (key : List Char) : Option Nat :=
  (table.find? (fun p => p.1.data == key)).map (fun p => p.2)

def setDatePart (ctx : ParseContext) : DatePart → Nat → ParseContext
  | .year, n => { ctx with year := n }
  | .month, n => { ctx with month := n }
  | .day, n => { ctx with day := n }
  | .hour, n => { ctx with hour := some n }
  | .minute, n => { ctx with minute := some n }
  | .second, n => { ctx with second := some n }

/-- UTCOffsetPart.got_value: slice the sign, hours and minutes out of the
captured text according to the layout and build the fixed-offset timezone. -/
def offsetGotValue (variant : OffsetVariant) (v : List Char) : Option TzInfo :=
  match v with
  | sign :: rest =>
    let hs :=
      match variant with
      | .hhmm => rest.take 2
      | .hhColonMm => rest.take 2
      | .hhOnly => rest.take 2
    let ms :=
      match variant with
      | .hhmm => (rest.drop 2).take 2
      | .hhColonMm => (rest.drop 3).take 2
      | .hhOnly => []
    let total : Int := ((digitsToNat hs) * 60 + digitsToNat ms : Nat)
    some (.utcOffset (if sign = '-' then -total else total))
  | [] => none

/-- TimestampPart.got_value: divide the captured integer by the unit divisor
(int/int division, modelled exactly with the round-half-even
float-to-microseconds step of utcfromtimestamp), decompose as a UTC
date-time, and assign every clock field; the microsecond field is assigned
only when the divisor exceeds one. -/
def timestampGotValue (divisor : Nat) (v : List Char) (ctx : ParseContext) :
    ParseContext :=
  let us : Int := roundHalfEven (mkRat ((digitsToNat v : Int) * 1000000) divisor)
  let dt := utcFromTimestampMicros us
  { ctx with
    year := dt.year, month := dt.month, day := dt.day,
    hour := some dt.hour, minute := some dt.minute, second := some dt.second,
    microsecond := if divisor > 1 then some dt.microsecond else ctx.microsecond }

/-- Per-token treatment of one captured value: the direct integer assignment
of the VALUE_MATCHES_DATE_COMPONENT_INT tokens, or the got_value method of
the others.  A month-name lookup miss is the KeyError the source would
raise.  FractionalSecond builds float('0.' + value) * 1000000 truncated by
int(), modelled exactly on the decimal value. -/
def applyToken (t : Token) (ctx : ParseContext) (value : List Char) :
    Except ParseError ParseContext :=
  match t.kind with
  | .simple dp => .ok (setDatePart ctx dp (digitsToNat value))
  | .hourPart => .ok { ctx with hour := some (digitsToNat value) }
  | .shortYear =>
    let year := digitsToNat value
    .ok { ctx with year := if year > 69 then year + 1900 else year + 2000 }
  | .monthName toNum _ =>
    match lookupName toNum (strLower value) with
    | some n => .ok { ctx with month := n }
    | none => .error .keyError
  | .microPart mult => .ok { ctx with microsecond := some (digitsToNat value * mult) }
  | .fracSecond =>
    .ok { ctx with microsecond := some (digitsToNat value * 1000000 / 10 ^ value.length) }
  | .timestampPart d => .ok (timestampGotValue d value ctx)
  | .amPm => .ok { ctx with is_pm := some (strLower value == "pm".data) }
  | .utcOffset variant =>
    match offsetGotValue variant value with
    | some tz => .ok { ctx with tzinfo := some tz }
    | none => .error .keyError
  | .namedTz => .ok { ctx with tzinfo := some (.zone (String.mk value)) }
  | .ignorePart _ => .ok ctx
  | .daySuffix => .ok ctx
  | .weekdayName _ => .ok ctx

/-- Zip the group-owning tokens with the captured groups and fold the
assignments into the context, in capture order. -/
def applyValues : List Token → List (List Char) → ParseContext →
    Except ParseError ParseContext
  | t :: ts, v :: vs, ctx => do applyValues ts vs (← applyToken t ctx v)
  | _, _, ctx => .ok ctx

/-- One entry of the parse chain.  materialize is the None sentinel the
parse loop replaces by the datetime(**context) construction; amPmFix is
AmPmPart.prepare_parse_context; tzFixup is
NamedTimezeonePart.fixup_parsed_timezone. -/
inductive ChainItem where
  | materialize
  | amPmFix
  | tzFixup
  deriving DecidableEq, Repr

/-- install_chain_handlers of one token: AmPmPart inserts its handler at the
front of the chain, NamedTimezeonePart appends its handler at the end, every
other token installs nothing into the parse chain. -/
def installChainStep (chain : List ChainItem) (t : Token) : List ChainItem :=
  match t.kind with
  | .amPm => .amPmFix :: chain
  | .namedTz => chain ++ [.tzFixup]
  | _ => chain

/-- The parse chain after construction: it starts as the single materialize
sentinel and each token installs its handlers in token order. -/
def buildParseChain (tokens : List Token) : List ChainItem :=
  tokens.foldl installChainStep [.materialize]

def DateFormat.parse_chain (df : DateFormat) : List ChainItem :=
  buildParseChain df.tokens

/-- AmPmPart.prepare_parse_context: pop is_pm, read the hour (12 when
absent), move 1-12 into 0-23. -/
def prepare_parse_context (ctx : ParseContext) : ParseContext :=
  let hour := ctx.hour.getD 12
  let hour :=
    if ctx.is_pm.getD false then (if hour ≠ 12 then hour + 12 else hour)
    else (if hour = 12 then 0 else hour)
  { ctx with hour := some hour, is_pm := none }

/-- Run the parse chain in order.  The materialize sentinel constructs the
date-time from the context; a handler that runs before it receives None and
leaves the result untouched (AmPmPart mutates the context only); the
named-timezone fixup rebuilds the already-constructed value through the
provider localization, an external effect abstracted as the function
argument. -/
def runChain (localize : String → DateTime → DateTime) :
    List ChainItem → ParseContext → Option DateTime →
    Except ParseError (Option DateTime)
  | [], _, res => .ok res
  | .materialize :: rest, ctx, _ => do
    let dt ← mkDatetime ctx
    runChain localize rest ctx (some dt)
  | .amPmFix :: rest, ctx, res => runChain localize rest (prepare_parse_context ctx) res
  | .tzFixup :: rest, ctx, res =>
    match res with
    | some dt =>
      match dt.tzinfo with
      | some (.zone z) =>
        runChain localize rest ctx (some (localize z { dt with tzinfo := none }))
      | _ => .error .attrError
    | none => .error .attrError

/-- DateFormat.parse on a matched input: assign every captured group to the
context in capture order, then run the parse chain. -/
def DateFormat.parseMatched (df : DateFormat)
    (localize : String → DateTime → DateTime) (today : Today)
    (groups : List (List Char)) : Except ParseError (Option DateTime) := do
  let ctx ← applyValues df.re_tokens groups (initContext today)
  runChain localize df.parse_chain ctx none

/-- DateFormat.parse with the default left at the RAISE sentinel: a
non-matching input raises the no-match error. -/
def DateFormat.parse (df : DateFormat) (localize : String → DateTime → DateTime)
    (today : Today) (data : String) : Except ParseError (Option DateTime) :=
  match df.parserMatch data.data with
  | none => .error .noMatch
  | some groups => df.parseMatched localize today groups

/-- DateFormat.parse with a caller-supplied default of arbitrary type: a
non-matching input returns the default unchanged instead of failing. -/
def DateFormat.parseDefault {α : Type} (df : DateFormat)
    (localize : String → DateTime → DateTime) (today : Today) (data : String)
    (default : α) : Except ParseError (Option DateTime ⊕ α) :=
  match df.parserMatch data.data with
  | none => .ok (.inr default)
  | some groups => (df.parseMatched localize today groups).map .inl

/-- A Python value handed to matches_format: a string or anything else. -/
inductive PyVal where
  | str (s : String)
  | nonStr
  deriving DecidableEq, Repr

/-- DateFormat.matches_format: false for non-strings, else whether the
compiled anchored pattern matches. -/
def DateFormat.matches_format (df : DateFormat) (data : PyVal) : Bool :=
  match data with
  | .str s => (df.parserMatch s.data).isSome
  | .nonStr => false

inductive FormatError where
  | missingTzInfo
  | zoneOffsetUnknown
  deriving DecidableEq, Repr

/-- HourPart.HOUR_24_to_12: the fixed 24-to-12 table. -/
def HOUR_24_to_12 : List Nat :=
  [12, 1, 2, 3, 4, 5, 6, 7, 8, 9, 10, 11,
   12, 1, 2, 3, 4, 5, 6, 7, 8, 9, 10, 11, 12]

/-- DayOfMonthSuffixPart.add_format_context: th for 11-13, else by last
digit. -/
def dayOfMonthSuffix (day : Nat) : List Char :=
  if day == 11 || day == 12 || day == 13 then "th".data
  else
    match day % 10 with
    | 1 => "st".data
    | 2 => "nd".data
    | 3 => "rd".data
    | _ => "th".data

/-- date.weekday(): Monday is 0; 1970-01-01 was a Thursday. -/
def weekdayOf (date : DateTime) : Nat :=
  ((daysFromCivil (date.year : Int) date.month date.day + 3).emod 7).toNat

/-- str() of an int, sign included. -/
def intChars (i : Int) : List Char :=
  if i < 0 then '-' :: natChars i.natAbs else natChars i.toNat

/-- datetime.timezone.tzname of a whole-minute fixed offset. -/
def tznameOfOffset (minutes : Int) : List Char :=
  if minutes = 0 then "UTC".data
  else
    let sign := if minutes < 0 then '-' else '+'
    let a := minutes.natAbs
    "UTC".data ++ sign :: (padNum 2 (a / 60) ++ ':' :: padNum 2 (a % 60))

def getDatePart (date : DateTime) : DatePart → Nat
  | .year => date.year
  | .month => date.month
  | .day => date.day
  | .hour => date.hour
  | .minute => date.minute
  | .second => date.second

/-- UTCOffsetPart.add_format_context plus to_str_format: sign of the total
offset, then absolute hours and minutes in the layout of the variant. -/
def renderOffset (variant : OffsetVariant) (minutes : Int) : List Char :=
  let sign := if minutes < 0 then '-' else '+'
  let hoursAbs := minutes.natAbs / 60
  let minsAbs := minutes.natAbs % 60
  match variant with
  | .hhmm => sign :: (padNum 2 hoursAbs ++ padNum 2 minsAbs)
  | .hhColonMm => sign :: (padNum 2 hoursAbs ++ ':' :: padNum 2 minsAbs)
  | .hhOnly => sign :: padNum 2 hoursAbs

/-- format_part of one token evaluated on the subject value, folding in the
context fields its format-chain handler would have computed.  The offset of
a named zone and the timestamp of a named-zone-aware value come from the
external provider and are outside this model. -/
def Token.format_part (t : Token) (df : DateFormat) (date : DateTime) :
    Except FormatError (List Char) :=
  match t.kind with
  | .ignorePart fv => .ok fv
  | .daySuffix => .ok (dayOfMonthSuffix date.day)
  | .weekdayName fromNum => .ok (fromNum.getD (weekdayOf date) "").data
  | .simple dp => .ok (padNum t.format_str.length (getDatePart date dp))
  | .hourPart =>
    if df.is_24hour then .ok (padNum t.format_str.length date.hour)
    else .ok (padNum 2 (HOUR_24_to_12.getD date.hour 0))
  | .shortYear => .ok (padNum 2 (date.year % 100))
  | .monthName _ fromNum => .ok (fromNum.getD date.month "").data
  | .microPart mult =>
    .ok (padNum t.format_str.length
      (roundHalfEven (mkRat (date.microsecond : Int) mult)).toNat)
  | .fracSecond =>
    let s := ((padNum 6 date.microsecond).reverse.dropWhile (fun c => c == '0')).reverse
    .ok (if s.isEmpty then "0".data else s)
  | .timestampPart divisor =>
    match date.tzinfo with
    | some (.zone _) => .error .zoneOffsetUnknown
    | tz =>
      let off : Int :=
        match tz with
        | some (.utcOffset m) => m
        | _ => 0
      let epochSeconds : Int :=
        daysFromCivil (date.year : Int) date.month date.day * 86400
          + (date.hour * 3600 + date.minute * 60 + date.second : Nat) - off * 60
      let q : ℚ :=
        mkRat ((epochSeconds * 1000000 + (date.microsecond : Int)) * (divisor : Int)) 1000000
      .ok (intChars (ratTrunc q))
  | .amPm =>
    let pm := decide (date.hour % 24 ≥ 12)
    if t.format_str.all Char.isUpper then .ok (if pm then "PM".data else "AM".data)
    else if t.format_str.all Char.isLower then .ok (if pm then "pm".data else "am".data)
    else .ok (if pm then "Pm".data else "Am".data)
  | .utcOffset variant =>
    match date.tzinfo with
    | none => .error .missingTzInfo
    | some (.zone _) => .error .zoneOffsetUnknown
    | some (.utcOffset minutes) => .ok (renderOffset variant minutes)
  | .namedTz =>
    match date.tzinfo with
    | none => .error .missingTzInfo
    | some (.zone z) => .ok z.data
    | some (.utcOffset minutes) => .ok (tznameOfOffset minutes)

/-- DateFormat.format: run the format chain and evaluate the compiled
f-string, emitting each token's fragment in token order. -/
def DateFormat.format (df : DateFormat) (date : DateTime) :
    Except FormatError String := do
  let pieces ← df.tokens.mapM (fun t => t.format_part df date)
  pure (String.mk pieces.flatten)

deriving instance DecidableEq for Except

/-- A trivial provider localization, used to instantiate parse at concrete
inputs whose specifications contain no named-timezone token (the argument is
then never consulted). -/
def noLocalize : String → DateTime → DateTime := fun _ d => d

/-- A fixed current date used for concrete parse evaluations. -/
def today0 : Today := { year := 2024, month := 6, day := 15 }

/-- C2: for every compiled DateFormat and every input that the compiled
pattern does not match, parse with no default raises the no-match error, and
parse with a supplied default of any type returns exactly that default. -/
theorem C2_parse_default (df : DateFormat)
    (localize : String → DateTime → DateTime) (today : Today) (data : String)
    (h : df.parserMatch data.data = none) :
    df.parse localize today data = .error .noMatch ∧
    ∀ (α : Type) (dv : α), df.parseDefault localize today data dv = .ok (.inr dv) := by
  constructor
  · simp [DateFormat.parse, h]
  · intro α dv
    simp [DateFormat.parseDefault, h]

/-- Witness for C2 at the spec YYYY and the non-matching input xxx. -/
theorem C2_parse_default_witness :
    (mkDF "YYYY" none).parse noLocalize today0 "xxx" = .error .noMatch ∧
    (mkDF "YYYY" none).parseDefault noLocalize today0 "xxx" (7 : Nat) = .ok (.inr 7) := by
  have h : (mkDF "YYYY" none).parserMatch "xxx".data = none := by decide
  exact ⟨(C2_parse_default (mkDF "YYYY" none) noLocalize today0 "xxx" h).1,
         (C2_parse_default (mkDF "YYYY" none) noLocalize today0 "xxx" h).2 Nat 7⟩

/-- C3: every two-digit string matched by the short-year token YY (exactly
the strings padNum 2 v for v below 100) parses through the century rule:
value above 69 adds 1900, otherwise 2000; in particular 70 gives 1970, 69
gives 2069 and 60 gives 2060. -/
theorem C3_short_year_century :
    (∀ v, v < 100 →
      (mkDF "YY" none).parse noLocalize today0 (String.mk (padNum 2 v)) =
        .ok (some { year := if v > 69 then v + 1900 else v + 2000, month := 6,
                    day := 15, hour := 0, minute := 0, second := 0,
                    microsecond := 0, tzinfo := none })) ∧
    (mkDF "YY" none).parse noLocalize today0 "70" =
      .ok (some ⟨1970, 6, 15, 0, 0, 0, 0, none⟩) ∧
    (mkDF "YY" none).parse noLocalize today0 "69" =
      .ok (some ⟨2069, 6, 15, 0, 0, 0, 0, none⟩) ∧
    (mkDF "YY" none).parse noLocalize today0 "60" =
      .ok (some ⟨2060, 6, 15, 0, 0, 0, 0, none⟩) := by
  refine ⟨by decide, by decide, by decide, by decide⟩

/-- Witness for C3 at the two-digit string 70. -/
theorem C3_short_year_century_witness :
    (70 : Nat) < 100 ∧
    (mkDF "YY" none).parse noLocalize today0 (String.mk (padNum 2 70)) =
      .ok (some { year := 1970, month := 6, day := 15, hour := 0, minute := 0,
                  second := 0, microsecond := 0, tzinfo := none }) :=
  ⟨by decide, C3_short_year_century.1 70 (by decide)⟩

/-- The sentence of claim C5 as a predicate on a parse chain: no entry runs
after the materialize sentinel. -/
def noHandlerAfterMaterialize (chain : List ChainItem) : Bool :=
  ((chain.dropWhile (fun x => !(x == ChainItem.materialize))).tail).isEmpty

/-- Counterexample to C5: the format UTC holds a named-timezone token whose
parse-chain handler is appended after the materialize sentinel, so it runs
after the date-time value has been constructed. -/
theorem C5_counterexample :
    (mkDF "UTC" none).parse_chain = [ChainItem.materialize, ChainItem.tzFixup] ∧
    noHandlerAfterMaterialize ((mkDF "UTC" none).parse_chain) = false := by
  refine ⟨by decide, by decide⟩

theorem buildParseChain_shape (ts : List Token) : ∀ (k n : Nat),
    ∃ k2 n2, List.foldl installChainStep
      (List.replicate k ChainItem.amPmFix ++
        ChainItem.materialize :: List.replicate n ChainItem.tzFixup) ts =
      List.replicate k2 ChainItem.amPmFix ++
        ChainItem.materialize :: List.replicate n2 ChainItem.tzFixup := by
  induction ts with
  | nil => exact fun k n => ⟨k, n, rfl⟩
  | cons t ts ih =>
    intro k n
    rw [List.foldl_cons]
    obtain ⟨fmt, re, rx, kind⟩ := t
    cases kind with
    | amPm =>
      have h : installChainStep
          (List.replicate k ChainItem.amPmFix ++
            ChainItem.materialize :: List.replicate n ChainItem.tzFixup)
          ⟨fmt, re, rx, .amPm⟩ =
          List.replicate (k + 1) ChainItem.amPmFix ++
            ChainItem.materialize :: List.replicate n ChainItem.tzFixup := by
        simp [installChainStep, List.replicate_succ]
      rw [h]; exact ih (k + 1) n
    | namedTz =>
      have h : installChainStep
          (List.replicate k ChainItem.amPmFix ++
            ChainItem.materialize :: List.replicate n ChainItem.tzFixup)
          ⟨fmt, re, rx, .namedTz⟩ =
          List.replicate k ChainItem.amPmFix ++
            ChainItem.materialize :: List.replicate (n + 1) ChainItem.tzFixup := by
        simp [installChainStep, List.replicate_succ']
      rw [h]; exact ih k (n + 1)
    | ignorePart fv => exact ih k n
    | daySuffix => exact ih k n
    | weekdayName tbl => exact ih k n
    | simple dp => exact ih k n
    | hourPart => exact ih k n
    | shortYear => exact ih k n
    | monthName a b => exact ih k n
    | microPart m => exact ih k n
    | fracSecond => exact ih k n
    | timestampPart d => exact ih k n
    | utcOffset v => exact ih k n

/-- C5 (amended): for every token sequence the constructed parse chain is
some AM/PM handlers (inserted at the front, so they run after all capture
groups are assigned and before materialization), then the materialize
sentinel, then some named-timezone fixup handlers (appended, so they run
after the date-time value has been constructed). -/
theorem C5_parse_chain_order (tokens : List Token) :
    ∃ k n, buildParseChain tokens =
      List.replicate k ChainItem.amPmFix ++
        ChainItem.materialize :: List.replicate n ChainItem.tzFixup :=
  buildParseChain_shape tokens 0 0

/-- Unit divisor of a timestamp token. -/
def timestampDivisor (t : Token) : Option Nat :=
  match t.kind with
  | .timestampPart d => some d
  | _ => none

/-- C9: the four unix-timestamp tokens carry the divisors 1, 1000, 1000000
and 1000000000, and the documented parse vectors hold: UNIX_TIMESTAMP at 0
is the epoch, UNIX_MILLISECONDS at 1 is one millisecond past the epoch, and
UNIX_NANOSECONDS at 1 is the epoch with the sub-microsecond remainder
rounded away to zero. -/
theorem C9_unix_timestamp_parse :
    FORMAT_STR_TOKENS.filterMap timestampDivisor = [1, 1000, 1000000, 1000000000] ∧
    (mkDF "UNIX_TIMESTAMP" none).parse noLocalize today0 "0" =
      .ok (some ⟨1970, 1, 1, 0, 0, 0, 0, none⟩) ∧
    (mkDF "UNIX_MILLISECONDS" none).parse noLocalize today0 "1" =
      .ok (some ⟨1970, 1, 1, 0, 0, 0, 1000, none⟩) ∧
    (mkDF "UNIX_NANOSECONDS" none).parse noLocalize today0 "1" =
      .ok (some ⟨1970, 1, 1, 0, 0, 0, 0, none⟩) := by
  refine ⟨by decide, by decide, by decide, by decide⟩

/-- C10: with is_24hour forced false, the hh token renders through the fixed
HOUR_24_to_12 table, zero-padded to width two; the table sends 0 and 12 to
12 and every other hour below 24 to its 1-11 counterpart; midnight renders
as 12; and the mode inference is 12-hour exactly when an AM/PM token is
present. -/
theorem C10_hour_12_format :
    (∀ h, h < 24 →
      (mkDF "hh" (some false)).format ⟨2024, 1, 1, h, 0, 0, 0, none⟩ =
        .ok (String.mk (padNum 2 (HOUR_24_to_12.getD h 0))) ∧
      HOUR_24_to_12.getD h 0 = (if h % 12 = 0 then 12 else h % 12) ∧
      (padNum 2 (HOUR_24_to_12.getD h 0)).length = 2) ∧
    (mkDF "hh" (some false)).format ⟨2024, 1, 1, 0, 0, 0, 0, none⟩ = .ok "12" ∧
    (mkDF "hh am" none).is_24hour = false ∧
    (mkDF "hh" none).is_24hour = true := by
  refine ⟨by decide, by decide, by decide, by decide⟩

/-- Witness for C10 at midnight. -/
theorem C10_hour_12_format_witness :
    (0 : Nat) < 24 ∧
    (mkDF "hh" (some false)).format ⟨2024, 1, 1, 0, 0, 0, 0, none⟩ =
      .ok (String.mk (padNum 2 (HOUR_24_to_12.getD 0 0))) :=
  ⟨by decide, (C10_hour_12_format.1 0 (by decide)).1⟩

/-- Counterexample to C4: the spec hh:mm lacks date tokens, so parse seeds
year, month and day from the current date and two runs on the same input
under different current dates give different results. -/
theorem C4_counterexample :
    (mkDF "hh:mm" none).parse noLocalize ⟨2020, 1, 1⟩ "05:06" =
      .ok (some ⟨2020, 1, 1, 5, 6, 0, 0, none⟩) ∧
    (mkDF "hh:mm" none).parse noLocalize ⟨2020, 1, 2⟩ "05:06" =
      .ok (some ⟨2020, 1, 2, 5, 6, 0, 0, none⟩) ∧
    (mkDF "hh:mm" none).parse noLocalize ⟨2020, 1, 1⟩ "05:06" ≠
      (mkDF "hh:mm" none).parse noLocalize ⟨2020, 1, 2⟩ "05:06" := by
  refine ⟨by decide, by decide, by decide⟩

/-- Acceptance of the whole input with nothing left over, the reading of the
claim sentence anchored at both ends. -/
def acceptsEntire (df : DateFormat) (s : String) : Bool :=
  (matchSeqEnd exactEnd df.parts s.data).isSome

/-- Counterexample to C8: the Python dollar anchor also matches just before
one trailing newline, so matches_format accepts an input the pattern does
not accept in its entirety. -/
theorem C8_counterexample :
    (mkDF "YYYY" none).matches_format (PyVal.str "2020\n") = true ∧
    acceptsEntire (mkDF "YYYY" none) "2020\n" = false := by
  refine ⟨by decide, by decide⟩

/-- The ISO-like all-lossless specification used for the round-trip claim. -/
def dfISO : DateFormat := mkDF "YYYY-MM-DD hh:mm:ss" none

/-- Counterexample to C1: the input 2020-1-01 05:06:07 matches the compiled
pattern of YYYY-MM-DD hh:mm:ss (the month sub-pattern accepts one digit),
but formatting its parse zero-pads the month, so format after parse is not
the identity on every matching string. -/
theorem C1_counterexample :
    dfISO.matches_format (PyVal.str "2020-1-01 05:06:07") = true ∧
    dfISO.parse noLocalize today0 "2020-1-01 05:06:07" =
      .ok (some ⟨2020, 1, 1, 5, 6, 7, 0, none⟩) ∧
    dfISO.format ⟨2020, 1, 1, 5, 6, 7, 0, none⟩ = .ok "2020-01-01 05:06:07" ∧
    ("2020-01-01 05:06:07" : String) ≠ "2020-1-01 05:06:07" := by
  refine ⟨by decide, by decide, by decide, by decide⟩

theorem boolEqOfIff {a b : Bool} (h : a = true ↔ b = true) : a = b := by
  cases a <;> cases b <;> simp_all

theorem optionIsSomeMap {α β : Type} (f : α → β) (o : Option α) :
    (o.map f).isSome = o.isSome := by
  cases o <;> rfl

theorem segOnce_sound (cl : Cls) (lo hi : Nat) (sep : Char) (cs : List Char)
    (p : List Char × List Char) (h : p ∈ segOnce cl lo hi sep cs) :
    p.1 ++ p.2 = cs := by
  simp only [segOnce] at h
  split at h
  · simp at h
  · simp only [List.mem_filterMap] at h
    obtain ⟨k, _, hk⟩ := h
    rcases hd : cs.drop k with _ | ⟨x, rest⟩ <;> rw [hd] at hk
    · simp at hk
    · have hk2 : (if lcEq x sep = true then some (cs.take k ++ [x], rest) else none) =
        some p := hk
      split at hk2
      · rw [Option.some_inj] at hk2
        subst hk2
        show (cs.take k ++ [x]) ++ rest = cs
        rw [List.append_assoc, List.singleton_append, ← hd, List.take_append_drop]
      · simp at hk2

theorem segCands_sound (cl : Cls) (lo hi : Nat) (sep : Char) :
    ∀ (fuel : Nat) (cs : List Char) (p : List Char × List Char),
      p ∈ segCands cl lo hi sep fuel cs → p.1 ++ p.2 = cs := by
  intro fuel
  induction fuel with
  | zero => intro cs p h; simp [segCands] at h
  | succ fuel ih =>
    intro cs p h
    simp only [segCands, List.mem_flatten, List.mem_map] at h
    obtain ⟨l, ⟨q, hq, rfl⟩, hp⟩ := h
    rcases List.mem_cons.mp hp with rfl | hp
    · exact segOnce_sound cl lo hi sep cs q hq
    · obtain ⟨r, hr, rfl⟩ := List.mem_map.mp hp
      have h1 := segOnce_sound cl lo hi sep cs q hq
      have h2 := ih q.2 r hr
      show (q.1 ++ r.1) ++ r.2 = cs
      rw [List.append_assoc, h2, h1]

theorem rxCands_sound : ∀ (r : Rx) (cs : List Char) (p : List Char × List Char),
    p ∈ rxCands r cs → p.1 ++ p.2 = cs := by
  intro r
  induction r with
  | eps =>
    intro cs p h
    simp only [rxCands, List.mem_singleton] at h
    subst h; rfl
  | lit c =>
    intro cs p h
    cases cs with
    | nil => simp [rxCands] at h
    | cons x rest =>
      simp only [rxCands] at h
      split at h <;> simp at h
      subst h; rfl
  | cls cl =>
    intro cs p h
    cases cs with
    | nil => simp [rxCands] at h
    | cons x rest =>
      simp only [rxCands] at h
      split at h <;> simp at h
      subst h; rfl
  | seq a b iha ihb =>
    intro cs p h
    simp only [rxCands, List.mem_flatten, List.mem_map] at h
    obtain ⟨l, ⟨q, hq, rfl⟩, hp⟩ := h
    obtain ⟨w, hw, rfl⟩ := List.mem_map.mp hp
    have h1 := iha cs q hq
    have h2 := ihb q.2 w hw
    show (q.1 ++ w.1) ++ w.2 = cs
    rw [List.append_assoc, h2, h1]
  | alt a b iha ihb =>
    intro cs p h
    rcases List.mem_append.mp h with h | h
    · exact iha cs p h
    · exact ihb cs p h
  | opt a iha =>
    intro cs p h
    rcases List.mem_append.mp h with h | h
    · exact iha cs p h
    · simp only [List.mem_singleton] at h; subst h; rfl
  | repCls cl lo hi =>
    intro cs p h
    simp only [rxCands] at h
    split at h
    · simp at h
    · obtain ⟨i, _, rfl⟩ := List.mem_map.mp h
      exact List.take_append_drop _ cs
  | plusLazyCls cl =>
    intro cs p h
    obtain ⟨i, _, rfl⟩ := List.mem_map.mp h
    exact List.take_append_drop _ cs
  | plusLazySeg cl lo hi sep =>
    intro cs p h
    exact segCands_sound cl lo hi sep cs.length cs p h

theorem firstSome_eq_some {α : Type} : ∀ (l : List (Option α)) (x : α),
    firstSome l = some x → some x ∈ l := by
  intro l
  induction l with
  | nil => intro x h; simp [firstSome] at h
  | cons o rest ih =>
    intro x h
    cases o with
    | some a =>
      simp only [firstSome, Option.some_inj] at h
      subst h; exact List.mem_cons_self _ _
    | none =>
      exact List.mem_cons_of_mem _ (ih x h)

theorem firstSome_isSome_iff {α : Type} : ∀ (l : List (Option α)),
    (firstSome l).isSome = true ↔ ∃ o ∈ l, o.isSome = true := by
  intro l
  induction l with
  | nil => simp [firstSome]
  | cons o rest ih =>
    cases o with
    | some a => simp [firstSome]
    | none => simp [firstSome, ih]

/-- On newline-free input the Python dollar anchor and exact end-of-input
acceptance coincide, piecewise through every backtracking branch. -/
theorem matchSeqEnd_pyEnd_iff_exact :
    ∀ (ps : List (Bool × Rx)) (cs : List Char), '\n' ∉ cs →
      (matchSeqEnd pyEnd ps cs).isSome = (matchSeqEnd exactEnd ps cs).isSome := by
  intro ps
  induction ps with
  | nil =>
    intro cs h
    have hne : (cs == ['\n']) = false := by
      rw [beq_eq_false_iff_ne]
      intro hcs
      exact h (hcs ▸ List.mem_singleton.mpr rfl)
    simp [matchSeqEnd, pyEnd, exactEnd, hne]
  | cons p ps ih =>
    intro cs h
    obtain ⟨g, r⟩ := p
    simp only [matchSeqEnd]
    apply boolEqOfIff
    rw [firstSome_isSome_iff, firstSome_isSome_iff]
    constructor
    · rintro ⟨o, ho, hos⟩
      obtain ⟨q, hq, rfl⟩ := List.mem_map.mp ho
      refine ⟨(matchSeqEnd exactEnd ps q.2).map (fun gs => if g then q.1 :: gs else gs),
        List.mem_map.mpr ⟨q, hq, rfl⟩, ?_⟩
      have hsub : '\n' ∉ q.2 := by
        intro hin
        exact h (by
          rw [← rxCands_sound r cs q hq]
          exact List.mem_append_right _ hin)
      rw [optionIsSomeMap, ← ih q.2 hsub, ← optionIsSomeMap (fun gs => if g then q.1 :: gs else gs)]
      exact hos
    · rintro ⟨o, ho, hos⟩
      obtain ⟨q, hq, rfl⟩ := List.mem_map.mp ho
      refine ⟨(matchSeqEnd pyEnd ps q.2).map (fun gs => if g then q.1 :: gs else gs),
        List.mem_map.mpr ⟨q, hq, rfl⟩, ?_⟩
      have hsub : '\n' ∉ q.2 := by
        intro hin
        exact h (by
          rw [← rxCands_sound r cs q hq]
          exact List.mem_append_right _ hin)
      rw [optionIsSomeMap, ih q.2 hsub, ← optionIsSomeMap (fun gs => if g then q.1 :: gs else gs)]
      exact hos

/-- C8 (amended): matches_format is a total Boolean function (never raises),
false on every non-string value, and on a newline-free string it is true
exactly when the compiled anchored case-insensitive pattern accepts the
entire input; the only divergence from the claim is the Python dollar
tolerance of one trailing newline shown in the counterexample. -/
theorem C8_matches_format :
    (∀ df : DateFormat, df.matches_format PyVal.nonStr = false) ∧
    (∀ (df : DateFormat) (s : String), '\n' ∉ s.data →
      df.matches_format (PyVal.str s) = acceptsEntire df s) := by
  constructor
  · intro df; rfl
  · intro df s h
    exact matchSeqEnd_pyEnd_iff_exact df.parts s.data h

/-- Witness for C8 at the spec YYYY and the newline-free input 2020. -/
theorem C8_matches_format_witness :
    (mkDF "YYYY" none).matches_format PyVal.nonStr = false ∧
    '\n' ∉ "2020".data ∧
    (mkDF "YYYY" none).matches_format (PyVal.str "2020") =
      acceptsEntire (mkDF "YYYY" none) "2020" :=
  ⟨C8_matches_format.1 (mkDF "YYYY" none), by decide,
   C8_matches_format.2 (mkDF "YYYY" none) "2020" (by decide)⟩

theorem splitFirst_sound (pat : List Char) :
    ∀ (s b a : List Char), splitFirst pat s = some (b, a) → s = b ++ pat ++ a := by
  intro s
  induction s with
  | nil =>
    intro b a h
    simp only [splitFirst] at h
    split at h
    · rw [Option.some_inj] at h
      injection h with h1 h2
      subst h1; subst h2
      have hp : pat = [] := List.isEmpty_iff.mp (by assumption)
      simp [hp]
    · simp at h
  | cons c rest ih =>
    intro b a h
    simp only [splitFirst] at h
    split at h
    · rw [Option.some_inj] at h
      injection h with h1 h2
      subst h1; subst h2
      have hpre : pat <+: c :: rest := by
        rw [← List.isPrefixOf_iff_prefix]
        assumption
      obtain ⟨t, ht⟩ := hpre
      rw [← ht, List.nil_append, List.drop_left]
    · rcases hs : splitFirst pat rest with _ | ⟨b2, a2⟩ <;> rw [hs] at h
      · simp at h
      · have h2 : (c :: b2, a2) = (b, a) := by simpa using h
        injection h2 with h1 h2
        subst h1; subst h2
        have := ih b2 a2 hs
        simp [this]

theorem firstMatch_some : ∀ (l : List Token) (bit : List Char) (t : Token) (b a : List Char),
    firstMatch l bit = some (t, b, a) →
    t ∈ l ∧ t.format_str ≠ [] ∧ bit = b ++ t.format_str ++ a := by
  intro l
  induction l with
  | nil => intro bit t b a h; simp [firstMatch] at h
  | cons t0 ts ih =>
    intro bit t b a h
    simp only [firstMatch] at h
    by_cases hemp : t0.format_str.isEmpty
    · rw [if_pos hemp] at h
      have := ih bit t b a h
      exact ⟨List.mem_cons_of_mem _ this.1, this.2⟩
    · rw [if_neg hemp] at h
      rcases hs : splitFirst t0.format_str bit with _ | ⟨b2, a2⟩ <;> rw [hs] at h
      · have := ih bit t b a h
        exact ⟨List.mem_cons_of_mem _ this.1, this.2⟩
      · rw [Option.some_inj] at h
        injection h with h1 h2
        injection h2 with h2 h3
        subst h1; subst h2; subst h3
        refine ⟨List.mem_cons_self _ _, ?_, splitFirst_sound _ _ _ _ hs⟩
        intro he
        exact hemp (by simp [he])

theorem firstMatch_none : ∀ (l : List Token) (bit : List Char),
    firstMatch l bit = none →
    ∀ t ∈ l, t.format_str = [] ∨ splitFirst t.format_str bit = none := by
  intro l
  induction l with
  | nil => intro bit _ t ht; simp at ht
  | cons t0 ts ih =>
    intro bit h t ht
    simp only [firstMatch] at h
    by_cases hemp : t0.format_str.isEmpty
    · rw [if_pos hemp] at h
      rcases List.mem_cons.mp ht with rfl | ht2
      · left; exact List.isEmpty_iff.mp hemp
      · exact ih bit h t ht2
    · rw [if_neg hemp] at h
      rcases hs : splitFirst t0.format_str bit with _ | p <;> rw [hs] at h
      · rcases List.mem_cons.mp ht with rfl | ht2
        · right; exact hs
        · exact ih bit h t ht2
      · simp at h

/-- Every catalog entry matches a nonempty fragment of the specification. -/
theorem catalog_format_str_ne_nil : ∀ t ∈ FORMAT_STR_TOKENS, t.format_str ≠ [] := by
  decide

theorem tokenizeFuel_spec : ∀ (fuel : Nat) (bit : List Char), bit.length < fuel →
    (∃ ts, tokenizeFuel fuel bit = .ok ts) ∨
    (∃ frag, tokenizeFuel fuel bit = .error frag ∧ frag ≠ [] ∧ frag <:+: bit ∧
      ∀ t ∈ FORMAT_STR_TOKENS, splitFirst t.format_str frag = none) := by
  intro fuel
  induction fuel with
  | zero => intro bit h; omega
  | succ fuel ih =>
    intro bit hlen
    rcases hfm : firstMatch FORMAT_STR_TOKENS bit with _ | ⟨t, b, a⟩
    · by_cases hbit : bit = []
      · left
        subst hbit
        exact ⟨[], by simp [tokenizeFuel, hfm]⟩
      · right
        refine ⟨bit, by simp [tokenizeFuel, hfm, hbit], hbit, List.infix_refl bit, ?_⟩
        intro t ht
        rcases firstMatch_none _ _ hfm t ht with h | h
        · exact absurd h (catalog_format_str_ne_nil t ht)
        · exact h
    · obtain ⟨htmem, htne, hsplit⟩ := firstMatch_some _ _ _ _ _ hfm
      have hf : 0 < t.format_str.length := List.length_pos.mpr htne
      have hlens : bit.length = b.length + t.format_str.length + a.length := by
        rw [hsplit]; simp only [List.length_append]
      have hblen : b.length < fuel := by omega
      have halen : a.length < fuel := by omega
      have hbinfix : b <:+: bit := by
        rw [hsplit, List.append_assoc]
        exact (List.prefix_append b _).isInfix
      have hainfix : a <:+: bit := by
        rw [hsplit]
        exact (List.suffix_append _ a).isInfix
      have hpre : (∃ l, (if b.isEmpty then (.ok [] : Except (List Char) (List Token))
            else tokenizeFuel fuel b) = .ok l) ∨
          (∃ frag, (if b.isEmpty then (.ok [] : Except (List Char) (List Token))
            else tokenizeFuel fuel b) = .error frag ∧ frag ≠ [] ∧ frag <:+: bit ∧
            ∀ t2 ∈ FORMAT_STR_TOKENS, splitFirst t2.format_str frag = none) := by
        by_cases hbe : b.isEmpty
        · left; exact ⟨[], by rw [if_pos hbe]⟩
        · rw [if_neg hbe]
          rcases ih b hblen with ⟨ts, h⟩ | ⟨frag, h1, h2, h3, h4⟩
          · exact .inl ⟨ts, h⟩
          · exact .inr ⟨frag, h1, h2, h3.trans hbinfix, h4⟩
      have hpost : (∃ l, (if a.isEmpty then (.ok [] : Except (List Char) (List Token))
            else tokenizeFuel fuel a) = .ok l) ∨
          (∃ frag, (if a.isEmpty then (.ok [] : Except (List Char) (List Token))
            else tokenizeFuel fuel a) = .error frag ∧ frag ≠ [] ∧ frag <:+: bit ∧
            ∀ t2 ∈ FORMAT_STR_TOKENS, splitFirst t2.format_str frag = none) := by
        by_cases hae : a.isEmpty
        · left; exact ⟨[], by rw [if_pos hae]⟩
        · rw [if_neg hae]
          rcases ih a halen with ⟨ts, h⟩ | ⟨frag, h1, h2, h3, h4⟩
          · exact .inl ⟨ts, h⟩
          · exact .inr ⟨frag, h1, h2, h3.trans hainfix, h4⟩
      have hstep : tokenizeFuel (fuel + 1) bit =
          match (if b.isEmpty then (.ok [] : Except (List Char) (List Token))
            else tokenizeFuel fuel b) with
          | .error e => .error e
          | .ok pre =>
            match (if a.isEmpty then (.ok [] : Except (List Char) (List Token))
              else tokenizeFuel fuel a) with
            | .error e => .error e
            | .ok post => .ok (pre ++ t :: post) := by
        conv_lhs => rw [tokenizeFuel]
        rw [hfm]
      rcases hpre with ⟨pre, hpre⟩ | ⟨frag, hpre, h2, h3, h4⟩
      · rcases hpost with ⟨post, hpost⟩ | ⟨frag, hpost, h2, h3, h4⟩
        · left
          exact ⟨pre ++ t :: post, by rw [hstep, hpre, hpost]⟩
        · right
          exact ⟨frag, by rw [hstep, hpre, hpost], h2, h3, h4⟩
      · right
        exact ⟨frag, by rw [hstep, hpre], h2, h3, h4⟩

/-- C7: the spec tokenizer is total: on every specification string it either
returns a token sequence or fails on a nonempty residual substring of the
specification in which no catalog entry occurs.  Termination rests on the
strict shrinking of the before/after parts of the partition, which is what
keeps the length-bounded fuel of the embedding from being exhausted (hlens,
hblen, halen in the proof of tokenizeFuel_spec). -/
theorem C7_tokenizer_total (s : List Char) :
    (∃ ts, tokenizeSpec s = .ok ts) ∨
    (∃ frag, tokenizeSpec s = .error frag ∧ frag ≠ [] ∧ frag <:+: s ∧
      ∀ t ∈ FORMAT_STR_TOKENS, splitFirst t.format_str frag = none) :=
  tokenizeFuel_spec (s.length + 1) s (Nat.lt_succ_self _)

/-- Number of capturing groups in a regular expression source text: an
unescaped left parenthesis not followed by a question mark opens one.  A
backslash consumes the following character. -/
def countCaptureGroups : List Char → Nat
  | [] => 0
  | [c] => if c = '(' then 1 else 0
  | c :: c2 :: rest =>
    if c = '\\' then countCaptureGroups rest
    else if c = '(' then (if c2 = '?' then 0 else 1) + countCaptureGroups (c2 :: rest)
    else countCaptureGroups (c2 :: rest)

/-- A pattern chunk safe for concatenation: it neither ends inside an escape
nor ends with an unescaped left parenthesis, so its capture count is not
changed by whatever text follows it. -/
def goodChunk : List Char → Bool
  | [] => true
  | [c] => !(c = '\\' || c = '(')
  | c :: c2 :: rest =>
    if c = '\\' then goodChunk rest
    else goodChunk (c2 :: rest)

theorem ccg_esc (d : Char) (rest : List Char) :
    countCaptureGroups ('\\' :: d :: rest) = countCaptureGroups rest := by
  simp [countCaptureGroups]

theorem ccg_open (c2 : Char) (rest : List Char) :
    countCaptureGroups ('(' :: c2 :: rest) =
      (if c2 = '?' then 0 else 1) + countCaptureGroups (c2 :: rest) := by
  simp [countCaptureGroups]

theorem ccg_step (c c2 : Char) (rest : List Char) (hc : c ≠ '\\') (hp : c ≠ '(') :
    countCaptureGroups (c :: c2 :: rest) = countCaptureGroups (c2 :: rest) := by
  simp [countCaptureGroups, hc, hp]

theorem ccg_single (c : Char) (hp : c ≠ '(') : countCaptureGroups [c] = 0 := by
  simp [countCaptureGroups, hp]

theorem ccg_cons_other (c : Char) (ys : List Char) (hc : c ≠ '\\') (hp : c ≠ '(') :
    countCaptureGroups (c :: ys) = countCaptureGroups ys := by
  rcases ys with _ | ⟨y, ys2⟩
  · simp [countCaptureGroups, hp]
  · exact ccg_step c y ys2 hc hp

theorem gc_esc (d : Char) (rest : List Char) :
    goodChunk ('\\' :: d :: rest) = goodChunk rest := by
  simp [goodChunk]

theorem gc_step (c c2 : Char) (rest : List Char) (hc : c ≠ '\\') :
    goodChunk (c :: c2 :: rest) = goodChunk (c2 :: rest) := by
  simp [goodChunk, hc]

theorem ccg_append_aux : ∀ (n : Nat) (xs ys : List Char), xs.length ≤ n →
    goodChunk xs = true →
    countCaptureGroups (xs ++ ys) = countCaptureGroups xs + countCaptureGroups ys := by
  intro n
  induction n with
  | zero =>
    intro xs ys hl _
    have hx : xs = [] := List.eq_nil_of_length_eq_zero (Nat.le_zero.mp hl)
    subst hx
    simp [countCaptureGroups]
  | succ n ih =>
    intro xs ys hl hg
    rcases xs with _ | ⟨c, rest⟩
    · simp [countCaptureGroups]
    · rcases rest with _ | ⟨c2, rest2⟩
      · have hcp : ¬c = '\\' ∧ ¬c = '(' := by
          simpa [goodChunk] using hg
        show countCaptureGroups (c :: ys) = countCaptureGroups [c] + countCaptureGroups ys
        rw [ccg_cons_other c ys hcp.1 hcp.2, ccg_single c hcp.2, Nat.zero_add]
      · by_cases hc : c = '\\'
        · subst hc
          rw [gc_esc] at hg
          simp only [List.length_cons] at hl
          have hih := ih rest2 ys (by omega) hg
          show countCaptureGroups ('\\' :: c2 :: (rest2 ++ ys)) =
            countCaptureGroups ('\\' :: c2 :: rest2) + countCaptureGroups ys
          rw [ccg_esc, ccg_esc, hih]
        · rw [gc_step c c2 rest2 hc] at hg
          simp only [List.length_cons] at hl
          have hih := ih (c2 :: rest2) ys (by simp only [List.length_cons]; omega) hg
          have hih2 : countCaptureGroups (c2 :: (rest2 ++ ys)) =
              countCaptureGroups (c2 :: rest2) + countCaptureGroups ys := hih
          by_cases hp : c = '('
          · subst hp
            show countCaptureGroups ('(' :: c2 :: (rest2 ++ ys)) =
              countCaptureGroups ('(' :: c2 :: rest2) + countCaptureGroups ys
            rw [ccg_open, ccg_open, hih2, Nat.add_assoc]
          · show countCaptureGroups (c :: c2 :: (rest2 ++ ys)) =
              countCaptureGroups (c :: c2 :: rest2) + countCaptureGroups ys
            rw [ccg_step c c2 _ hc hp, ccg_step c c2 _ hc hp, hih2]

theorem ccg_append (xs ys : List Char) (hg : goodChunk xs = true) :
    countCaptureGroups (xs ++ ys) = countCaptureGroups xs + countCaptureGroups ys :=
  ccg_append_aux xs.length xs ys (Nat.le_refl _) hg

/-- The mode-dependent raw sub-pattern text of a token: HourPart chooses its
range by the 12/24-hour mode, every other token has a fixed stored text. -/
def rawReStr (t : Token) (is24 : Bool) : String :=
  match t.kind with
  | .hourPart => if is24 then RE_0_TO_24 else RE_0_TO_12
  | _ => t.re_str

/-- DateFormatPart.parser_re as source text: a token owning a capture group
wraps its pattern in one group, an ignore token emits it bare. -/
def parser_re_str (t : Token) (is24 : Bool) : List Char :=
  if t.containsGroup then '(' :: (rawReStr t is24).data ++ [')']
  else (rawReStr t is24).data

/-- The full anchored pattern source: caret, every token sub-pattern in
token order, dollar. -/
def fullPatternStr (tokens : List Token) (is24 : Bool) : List Char :=
  '^' :: (tokens.map (fun t => parser_re_str t is24)).flatten ++ ['$']

/-- Each catalog entry contributes exactly one capturing group when it owns
one and none otherwise, in either hour mode, and its chunk is concatenation
safe. -/
theorem catalog_parser_re_groups : ∀ t ∈ FORMAT_STR_TOKENS,
    (countCaptureGroups (parser_re_str t true) = (if t.containsGroup then 1 else 0) ∧
      goodChunk (parser_re_str t true) = true) ∧
    (countCaptureGroups (parser_re_str t false) = (if t.containsGroup then 1 else 0) ∧
      goodChunk (parser_re_str t false) = true) := by
  decide

theorem tokenizeFuel_mem : ∀ (fuel : Nat) (bit : List Char) (ts : List Token),
    tokenizeFuel fuel bit = .ok ts → ∀ t ∈ ts, t ∈ FORMAT_STR_TOKENS := by
  intro fuel
  induction fuel with
  | zero => intro bit ts h; simp [tokenizeFuel] at h
  | succ fuel ih =>
    intro bit ts h
    rcases hfm : firstMatch FORMAT_STR_TOKENS bit with _ | ⟨t0, b, a⟩
    · have hstep : tokenizeFuel (fuel + 1) bit =
          if bit.isEmpty then .ok [] else .error bit := by
        conv_lhs => rw [tokenizeFuel]
        rw [hfm]
      rw [hstep] at h
      split at h
      · injection h with h1
        subst h1
        intro t ht
        simp at ht
      · exact absurd h (by simp)
    · have hsome := firstMatch_some _ _ _ _ _ hfm
      have hstep : tokenizeFuel (fuel + 1) bit =
          match (if b.isEmpty then (.ok [] : Except (List Char) (List Token))
            else tokenizeFuel fuel b) with
          | .error e => .error e
          | .ok pre =>
            match (if a.isEmpty then (.ok [] : Except (List Char) (List Token))
              else tokenizeFuel fuel a) with
            | .error e => .error e
            | .ok post => .ok (pre ++ t0 :: post) := by
        conv_lhs => rw [tokenizeFuel]
        rw [hfm]
      rw [hstep] at h
      rcases hpre : (if b.isEmpty then (.ok [] : Except (List Char) (List Token))
          else tokenizeFuel fuel b) with e | pre <;> rw [hpre] at h
      · exact absurd h (by simp)
      · rcases hpost : (if a.isEmpty then (.ok [] : Except (List Char) (List Token))
            else tokenizeFuel fuel a) with e | post <;> rw [hpost] at h
        · exact absurd h (by simp)
        · have h2 : Except.ok (ε := List Char) (pre ++ t0 :: post) = .ok ts := h
          injection h2 with h3
          subst h3
          intro t ht
          rcases List.mem_append.mp ht with hl | hr
          · by_cases hbe : b.isEmpty
            · rw [if_pos hbe] at hpre
              injection hpre with h4
              subst h4
              simp at hl
            · rw [if_neg hbe] at hpre
              exact ih b pre hpre t hl
          · rcases List.mem_cons.mp hr with rfl | hr2
            · exact hsome.1
            · by_cases hae : a.isEmpty
              · rw [if_pos hae] at hpost
                injection hpost with h4
                subst h4
                simp at hr2
              · rw [if_neg hae] at hpost
                exact ih a post hpost t hr2

theorem ccg_flatten_tail (b : Bool) : ∀ (ts : List Token),
    (∀ t ∈ ts, t ∈ FORMAT_STR_TOKENS) →
    countCaptureGroups ((ts.map (fun t => parser_re_str t b)).flatten ++ ['$']) =
      (ts.filter Token.containsGroup).length := by
  intro ts
  induction ts with
  | nil => intro _; simp [countCaptureGroups]
  | cons t rest ih =>
    intro hmem
    have hcat := catalog_parser_re_groups t (hmem t (List.mem_cons_self _ _))
    have hchunk : countCaptureGroups (parser_re_str t b) =
        (if t.containsGroup then 1 else 0) ∧ goodChunk (parser_re_str t b) = true := by
      cases b with
      | false => exact hcat.2
      | true => exact hcat.1
    have hih := ih (fun t2 ht2 => hmem t2 (List.mem_cons_of_mem _ ht2))
    show countCaptureGroups ((parser_re_str t b ++
        (rest.map (fun t => parser_re_str t b)).flatten) ++ ['$']) =
      (List.filter Token.containsGroup (t :: rest)).length
    rw [List.append_assoc, ccg_append _ _ hchunk.2, hchunk.1, hih, List.filter_cons]
    cases hg : t.containsGroup
    · simp
    · simp [Nat.add_comm]

/-- C6: for every specification that tokenizes, the compiled pattern text
holds exactly one capturing group per value-bearing token: the total count
equals the number of value-bearing tokens, and chunk by chunk the capture
counts are the indicator of group ownership in token order, so the captured
groups of a match zip with re_tokens pairing each value with its owning
token. -/
theorem C6_capture_groups (spec : List Char) (ts : List Token) (b : Bool)
    (h : tokenizeSpec spec = .ok ts) :
    countCaptureGroups (fullPatternStr ts b) = (ts.filter Token.containsGroup).length ∧
    ts.map (fun t => countCaptureGroups (parser_re_str t b)) =
      ts.map (fun t => if t.containsGroup then 1 else 0) := by
  have hmem : ∀ t ∈ ts, t ∈ FORMAT_STR_TOKENS := tokenizeFuel_mem _ _ _ h
  constructor
  · have hcaret : countCaptureGroups
        ('^' :: ((ts.map (fun t => parser_re_str t b)).flatten ++ ['$'])) =
        countCaptureGroups ((ts.map (fun t => parser_re_str t b)).flatten ++ ['$']) :=
      ccg_cons_other '^' _ (by decide) (by decide)
    show countCaptureGroups
        ('^' :: ((ts.map (fun t => parser_re_str t b)).flatten ++ ['$'])) = _
    rw [hcaret]
    exact ccg_flatten_tail b ts hmem
  · apply List.map_congr_left
    intro t ht
    have hcat := catalog_parser_re_groups t (hmem t ht)
    cases b with
    | false => exact hcat.2.1
    | true => exact hcat.1.1

/-- Witness for C6 at the specification YYYY-MM-DD hh:mm:ss. -/
theorem C6_capture_groups_witness :
    countCaptureGroups (fullPatternStr (mkDF "YYYY-MM-DD hh:mm:ss" none).tokens true) =
      ((mkDF "YYYY-MM-DD hh:mm:ss" none).tokens.filter Token.containsGroup).length ∧
    (mkDF "YYYY-MM-DD hh:mm:ss" none).tokens.map
        (fun t => countCaptureGroups (parser_re_str t true)) =
      (mkDF "YYYY-MM-DD hh:mm:ss" none).tokens.map
        (fun t => if t.containsGroup then 1 else 0) :=
  C6_capture_groups "YYYY-MM-DD hh:mm:ss".data (mkDF "YYYY-MM-DD hh:mm:ss" none).tokens
    true (by decide)

theorem matchSeqEnd_length (endOk : List Char → Bool) :
    ∀ (ps : List (Bool × Rx)) (cs : List Char) (gs : List (List Char)),
      matchSeqEnd endOk ps cs = some gs →
      gs.length = (ps.filter (fun p => p.1)).length := by
  intro ps
  induction ps with
  | nil =>
    intro cs gs h
    simp only [matchSeqEnd] at h
    split at h
    · injection h with h1
      subst h1
      rfl
    · exact absurd h (by simp)
  | cons p ps ih =>
    intro cs gs h
    obtain ⟨g, r⟩ := p
    simp only [matchSeqEnd] at h
    have hmem := firstSome_eq_some _ _ h
    obtain ⟨q, hq, hsome⟩ := List.mem_map.mp hmem
    rcases hmi : matchSeqEnd endOk ps q.2 with _ | gs0 <;> rw [hmi] at hsome
    · simp at hsome
    · have hsome2 : (if g then q.1 :: gs0 else gs0) = gs := by simpa using hsome
      have hlen := ih q.2 gs0 hmi
      subst hsome2
      cases g
      · simpa [List.filter_cons] using hlen
      · simpa [List.filter_cons] using hlen

/-- The date-complete specification used for the current-date independence
claim. -/
def dfYMD : DateFormat := mkDF "YYYY-MM-DD" none

/-- C4 (amended): parse is a deterministic pure function of the input
string, the supplied default and the current date; when the specification
assigns year, month and day (here YYYY-MM-DD), every seeded current-date
field is overwritten by a captured value and the result is identical under
any two current dates, both for parse and for parse with a default.  A
specification lacking date tokens does depend on the current date (see the
counterexample). -/
theorem C4_today_independence (localize : String → DateTime → DateTime)
    (t1 t2 : Today) (data : String) :
    dfYMD.parse localize t1 data = dfYMD.parse localize t2 data ∧
    ∀ (α : Type) (dv : α),
      dfYMD.parseDefault localize t1 data dv = dfYMD.parseDefault localize t2 data dv := by
  have happ : ∀ (t : Today) (a b c : List Char),
      applyValues dfYMD.re_tokens [a, b, c] (initContext t) =
        .ok { year := digitsToNat a, month := digitsToNat b, day := digitsToNat c,
              hour := none, minute := none, second := none, microsecond := none,
              is_pm := none, tzinfo := none } := fun t a b c => rfl
  have hcore : ∀ groups, dfYMD.parserMatch data.data = some groups →
      dfYMD.parseMatched localize t1 groups = dfYMD.parseMatched localize t2 groups := by
    intro groups hm
    have hlen : groups.length = 3 := by
      have h3 := matchSeqEnd_length pyEnd dfYMD.parts data.data groups hm
      rw [h3]
      decide
    obtain ⟨a, b, c, rfl⟩ := List.length_eq_three.mp hlen
    show Except.bind (applyValues dfYMD.re_tokens [a, b, c] (initContext t1))
        (fun ctx => runChain localize dfYMD.parse_chain ctx none) =
      Except.bind (applyValues dfYMD.re_tokens [a, b, c] (initContext t2))
        (fun ctx => runChain localize dfYMD.parse_chain ctx none)
    rw [happ t1 a b c, happ t2 a b c]
  constructor
  · rcases hpm : dfYMD.parserMatch data.data with _ | groups
    · simp [DateFormat.parse, hpm]
    · simp only [DateFormat.parse, hpm]
      exact hcore groups hpm
  · intro α dv
    rcases hpm : dfYMD.parserMatch data.data with _ | groups
    · simp [DateFormat.parseDefault, hpm]
    · simp only [DateFormat.parseDefault, hpm]
      rw [hcore groups hpm]

theorem mseq_lit (e : List Char → Bool) (g : Bool) (c x : Char) (ps : List (Bool × Rx))
    (rest : List Char) (gs : List (List Char)) (hx : lcEq x c = true)
    (hsucc : matchSeqEnd e ps rest = some gs) :
    matchSeqEnd e ((g, Rx.lit c) :: ps) (x :: rest) =
      some (if g then [x] :: gs else gs) := by
  simp [matchSeqEnd, rxCands, hx, hsucc, firstSome]

theorem mseq_lit_fail (e : List Char → Bool) (g : Bool) (c x : Char)
    (ps : List (Bool × Rx)) (rest : List Char) (hx : lcEq x c = false) :
    matchSeqEnd e ((g, Rx.lit c) :: ps) (x :: rest) = none := by
  simp [matchSeqEnd, rxCands, hx, firstSome]

theorem runLen_zero_of_head (cl : Cls) (x : Char) (xs : List Char)
    (hx : ciMem cl x = false) : runLen cl (x :: xs) = 0 := by
  simp [runLen, List.takeWhile_cons, hx]

theorem mseq_space (e : List Char → Bool) (g : Bool) (x : Char) (ps : List (Bool × Rx))
    (rest : List Char) (gs : List (List Char)) (hx : ciMem Cls.space x = true)
    (hrest : runLen Cls.space rest = 0)
    (hsucc : matchSeqEnd e ps rest = some gs) :
    matchSeqEnd e ((g, Rx.plusLazyCls Cls.space) :: ps) (x :: rest) =
      some (if g then [x] :: gs else gs) := by
  have hrun : runLen Cls.space (x :: rest) = 1 := by
    simp only [runLen, List.takeWhile_cons, hx] at *
    simp [hrest]
  simp [matchSeqEnd, rxCands, hrun, hsucc, firstSome, (by decide : List.range 1 = [0])]

theorem mseq_space_fail (e : List Char → Bool) (g : Bool) (x : Char)
    (ps : List (Bool × Rx)) (rest : List Char) (hx : ciMem Cls.space x = false) :
    matchSeqEnd e ((g, Rx.plusLazyCls Cls.space) :: ps) (x :: rest) = none := by
  have hrun : runLen Cls.space (x :: rest) = 0 := runLen_zero_of_head _ _ _ hx
  simp [matchSeqEnd, rxCands, hrun, firstSome]

theorem takeWhile_append_all (pred : Char → Bool) : ∀ (p r : List Char),
    (∀ c ∈ p, pred c = true) →
    (p ++ r).takeWhile pred = p ++ r.takeWhile pred := by
  intro p
  induction p with
  | nil => intro r _; simp
  | cons c p ih =>
    intro r hall
    simp only [List.cons_append, List.takeWhile_cons,
      hall c (List.mem_cons_self _ _), if_true]
    rw [ih r (fun d hd => hall d (List.mem_cons_of_mem _ hd))]

theorem mseq_rep (e : List Char → Bool) (g : Bool) (w : Nat) (ps : List (Bool × Rx))
    (p rest : List Char) (gs : List (List Char)) (hw : 0 < w) (hlen : p.length = w)
    (hdig : ∀ c ∈ p, ciMem Cls.digit c = true)
    (hsucc : matchSeqEnd e ps rest = some gs) :
    matchSeqEnd e ((g, Rx.repCls Cls.digit w w) :: ps) (p ++ rest) =
      some (if g then p :: gs else gs) := by
  have hrun : runLen Cls.digit (p ++ rest) = w + runLen Cls.digit rest := by
    simp [runLen, takeWhile_append_all _ p rest hdig, hlen]
  have hmin : min w (runLen Cls.digit (p ++ rest)) = w := by
    rw [hrun]; omega
  have htake : (p ++ rest).take w = p := by
    rw [← hlen]; exact List.take_left p rest
  have hdrop : (p ++ rest).drop w = rest := by
    rw [← hlen]; exact List.drop_left p rest
  simp [matchSeqEnd, rxCands, hmin, Nat.lt_irrefl, htake, hdrop, hsucc, firstSome, hw,
    (by decide : List.range 1 = [0])]

theorem mseq_re60 (e : List Char → Bool) (g : Bool) (ps : List (Bool × Rx))
    (a b : Char) (rest : List Char) (gs : List (List Char))
    (ha : ciMem (Cls.range '0' '6') a = true)
    (ha2 : ciMem Cls.digit a = true)
    (hb : ciMem Cls.digit b = true)
    (hsucc : matchSeqEnd e ps rest = some gs) :
    matchSeqEnd e ((g, rx_0_to_60) :: ps) (a :: b :: rest) =
      some (if g then [a, b] :: gs else gs) := by
  simp [matchSeqEnd, rx_0_to_60, rxCands, ha, ha2, hb, hsucc, firstSome]

theorem mseq_re12_lo (e : List Char → Bool) (g : Bool) (ps : List (Bool × Rx))
    (b : Char) (rest : List Char) (gs : List (List Char))
    (hb : ciMem Cls.digit b = true)
    (hsucc : matchSeqEnd e ps rest = some gs) :
    matchSeqEnd e ((g, rx_0_to_12) :: ps) ('0' :: b :: rest) =
      some (if g then ['0', b] :: gs else gs) := by
  simp [matchSeqEnd, rx_0_to_12, rxCands, hb, hsucc, firstSome,
    (by decide : lcEq '0' '0' = true), (by decide : lcEq '0' '1' = false),
    (by decide : ciMem Cls.digit '0' = true)]

theorem mseq_re12_hi (e : List Char → Bool) (g : Bool) (ps : List (Bool × Rx))
    (b : Char) (rest : List Char) (gs : List (List Char))
    (hb : ciMem (Cls.range '0' '2') b = true)
    (hfail : matchSeqEnd e ps (b :: rest) = none)
    (hsucc : matchSeqEnd e ps rest = some gs) :
    matchSeqEnd e ((g, rx_0_to_12) :: ps) ('1' :: b :: rest) =
      some (if g then ['1', b] :: gs else gs) := by
  simp [matchSeqEnd, rx_0_to_12, rxCands, hb, hfail, hsucc, firstSome,
    (by decide : lcEq '1' '0' = false), (by decide : lcEq '1' '1' = true),
    (by decide : ciMem Cls.digit '1' = true)]

theorem mseq_re31_lo (e : List Char → Bool) (g : Bool) (ps : List (Bool × Rx))
    (a b : Char) (rest : List Char) (gs : List (List Char))
    (ha : ciMem (Cls.range '0' '2') a = true)
    (ha2 : ciMem Cls.digit a = true)
    (ha3 : lcEq a '3' = false)
    (hb : ciMem Cls.digit b = true)
    (hsucc : matchSeqEnd e ps rest = some gs) :
    matchSeqEnd e ((g, rx_0_to_31) :: ps) (a :: b :: rest) =
      some (if g then [a, b] :: gs else gs) := by
  simp [matchSeqEnd, rx_0_to_31, rxCands, ha, ha2, ha3, hb, hsucc, firstSome]

theorem mseq_re31_hi (e : List Char → Bool) (g : Bool) (ps : List (Bool × Rx))
    (b : Char) (rest : List Char) (gs : List (List Char))
    (hb : ciMem (Cls.range '0' '1') b = true)
    (hfail : matchSeqEnd e ps (b :: rest) = none)
    (hsucc : matchSeqEnd e ps rest = some gs) :
    matchSeqEnd e ((g, rx_0_to_31) :: ps) ('3' :: b :: rest) =
      some (if g then ['3', b] :: gs else gs) := by
  simp [matchSeqEnd, rx_0_to_31, rxCands, hb, hfail, hsucc, firstSome,
    (by decide : ciMem (Cls.range '0' '2') '3' = false),
    (by decide : ciMem Cls.digit '3' = true),
    (by decide : lcEq '3' '3' = true)]

theorem mseq_re24_lo (e : List Char → Bool) (g : Bool) (ps : List (Bool × Rx))
    (a b : Char) (rest : List Char) (gs : List (List Char))
    (ha : ciMem (Cls.range '0' '1') a = true)
    (ha2 : ciMem Cls.digit a = true)
    (ha3 : lcEq a '2' = false)
    (hb : ciMem Cls.digit b = true)
    (hsucc : matchSeqEnd e ps rest = some gs) :
    matchSeqEnd e ((g, rx_0_to_24) :: ps) (a :: b :: rest) =
      some (if g then [a, b] :: gs else gs) := by
  simp [matchSeqEnd, rx_0_to_24, rxCands, ha, ha2, ha3, hb, hsucc, firstSome]

theorem mseq_re24_hi (e : List Char → Bool) (g : Bool) (ps : List (Bool × Rx))
    (b : Char) (rest : List Char) (gs : List (List Char))
    (hb : ciMem (Cls.range '0' '4') b = true)
    (hfail : matchSeqEnd e ps (b :: rest) = none)
    (hsucc : matchSeqEnd e ps rest = some gs) :
    matchSeqEnd e ((g, rx_0_to_24) :: ps) ('2' :: b :: rest) =
      some (if g then ['2', b] :: gs else gs) := by
  simp [matchSeqEnd, rx_0_to_24, rxCands, hb, hfail, hsucc, firstSome,
    (by decide : ciMem (Cls.range '0' '1') '2' = false),
    (by decide : ciMem Cls.digit '2' = true),
    (by decide : lcEq '2' '2' = true)]

theorem pad2_decomp : ∀ n, n < 100 →
    padNum 2 n = [Nat.digitChar (n / 10), Nat.digitChar (n % 10)] := by decide

theorem digitChar_not_space : ∀ k, k < 10 →
    ciMem Cls.space (Nat.digitChar k) = false := by decide

theorem pad2_value : ∀ n, n < 100 → digitsToNat (padNum 2 n) = n := by decide

theorem digitChar_digit : ∀ k, k < 10 → ciMem Cls.digit (Nat.digitChar k) = true := by
  decide

theorem digitChar_val : ∀ k, k < 10 → (Nat.digitChar k).toNat - 48 = k := by decide

theorem natCharsAux_spec : ∀ (fuel n : Nat), n < fuel →
    (∀ c ∈ natCharsAux fuel n, ciMem Cls.digit c = true) ∧
    digitsToNat (natCharsAux fuel n) = n ∧
    (∀ k, n < 10 ^ k → 1 ≤ k → (natCharsAux fuel n).length ≤ k) := by
  intro fuel
  induction fuel with
  | zero => intro n hn; omega
  | succ fuel ih =>
    intro n hn
    by_cases h10 : n < 10
    · simp only [natCharsAux, if_pos h10]
      refine ⟨?_, ?_, ?_⟩
      · intro c hc
        rw [List.mem_singleton] at hc
        subst hc
        exact digitChar_digit n h10
      · show 0 * 10 + ((Nat.digitChar n).toNat - 48) = n
        rw [digitChar_val n h10]
        omega
      · intro k _ hk
        simpa using hk
    · have hdiv : n / 10 < fuel := by
        have h1 : n / 10 < n := Nat.div_lt_self (by omega) (by omega)
        omega
      obtain ⟨ihd, ihv, ihl⟩ := ih (n / 10) hdiv
      simp only [natCharsAux, if_neg h10]
      refine ⟨?_, ?_, ?_⟩
      · intro c hc
        rcases List.mem_append.mp hc with hc | hc
        · exact ihd c hc
        · rw [List.mem_singleton] at hc
          subst hc
          exact digitChar_digit (n % 10) (by omega)
      · show List.foldl (fun a c => a * 10 + (c.toNat - 48)) 0
          (natCharsAux fuel (n / 10) ++ [Nat.digitChar (n % 10)]) = n
        rw [List.foldl_append]
        show digitsToNat (natCharsAux fuel (n / 10)) * 10 +
          ((Nat.digitChar (n % 10)).toNat - 48) = n
        rw [ihv, digitChar_val (n % 10) (by omega)]
        omega
      · intro k hnk hk
        have hk2 : 2 ≤ k := by
          by_contra hcon
          have : k = 1 := by omega
          subst this
          simp at hnk
          omega
        have hdk : n / 10 < 10 ^ (k - 1) := by
          rw [Nat.div_lt_iff_lt_mul (by omega)]
          have : 10 ^ (k - 1) * 10 = 10 ^ k := by
            rw [← pow_succ]
            congr 1
            omega
          omega
        have := ihl (k - 1) hdk (by omega)
        simp only [List.length_append, List.length_singleton]
        omega

theorem digitsToNat_replicate_zero : ∀ k, digitsToNat (List.replicate k '0') = 0 := by
  intro k
  induction k with
  | zero => rfl
  | succ k ih =>
    show List.foldl (fun a c => a * 10 + (c.toNat - 48)) 0
      (List.replicate (k + 1) '0') = 0
    rw [List.replicate_succ, List.foldl_cons]
    exact ih

theorem padNum_facts (w n : Nat) (hw : 1 ≤ w) (hn : n < 10 ^ w) :
    (padNum w n).length = w ∧ (∀ c ∈ padNum w n, ciMem Cls.digit c = true) ∧
    digitsToNat (padNum w n) = n := by
  obtain ⟨hd, hv, hl⟩ := natCharsAux_spec (n + 1) n (Nat.lt_succ_self n)
  have hlen := hl w hn hw
  refine ⟨?_, ?_, ?_⟩
  · show (List.replicate (w - (natChars n).length) '0' ++ natChars n).length = w
    simp only [List.length_append, List.length_replicate]
    have : (natChars n).length ≤ w := hlen
    omega
  · intro c hc
    rcases List.mem_append.mp hc with hc | hc
    · rw [List.eq_of_mem_replicate hc]
      decide
    · exact hd c hc
  · show digitsToNat (List.replicate (w - (natChars n).length) '0' ++ natChars n) = n
    unfold digitsToNat
    rw [List.foldl_append]
    show List.foldl _ (digitsToNat (List.replicate (w - (natChars n).length) '0'))
      (natChars n) = n
    rw [digitsToNat_replicate_zero]
    exact hv

theorem pad4_facts (n : Nat) (hn : n < 10000) :
    (padNum 4 n).length = 4 ∧ (∀ c ∈ padNum 4 n, ciMem Cls.digit c = true) ∧
    digitsToNat (padNum 4 n) = n := padNum_facts 4 n (by omega) (by omega)

theorem step_pad2_60 (e : List Char → Bool) (g : Bool) (ps : List (Bool × Rx))
    (n : Nat) (rest : List Char) (gs : List (List Char)) (hn : n < 60)
    (hsucc : matchSeqEnd e ps rest = some gs) :
    matchSeqEnd e ((g, rx_0_to_60) :: ps) (padNum 2 n ++ rest) =
      some (if g then padNum 2 n :: gs else gs) := by
  interval_cases n <;>
    exact mseq_re60 e g ps _ _ rest gs (by decide) (by decide) (by decide) hsucc

theorem step_pad2_24 (e : List Char → Bool) (g : Bool) (ps : List (Bool × Rx))
    (n : Nat) (rest : List Char) (gs : List (List Char)) (hn : n < 24)
    (hfail : ∀ b2 ∈ ['0', '1', '2', '3'], matchSeqEnd e ps (b2 :: rest) = none)
    (hsucc : matchSeqEnd e ps rest = some gs) :
    matchSeqEnd e ((g, rx_0_to_24) :: ps) (padNum 2 n ++ rest) =
      some (if g then padNum 2 n :: gs else gs) := by
  interval_cases n <;>
    first
      | exact mseq_re24_lo e g ps _ _ rest gs (by decide) (by decide) (by decide)
          (by decide) hsucc
      | exact mseq_re24_hi e g ps _ rest gs (by decide) (hfail _ (by decide)) hsucc

theorem step_pad2_12 (e : List Char → Bool) (g : Bool) (ps : List (Bool × Rx))
    (n : Nat) (rest : List Char) (gs : List (List Char)) (h1 : 1 ≤ n) (h2 : n ≤ 12)
    (hfail : ∀ b2 ∈ ['0', '1', '2'], matchSeqEnd e ps (b2 :: rest) = none)
    (hsucc : matchSeqEnd e ps rest = some gs) :
    matchSeqEnd e ((g, rx_0_to_12) :: ps) (padNum 2 n ++ rest) =
      some (if g then padNum 2 n :: gs else gs) := by
  interval_cases n <;>
    first
      | exact mseq_re12_lo e g ps _ rest gs (by decide) hsucc
      | exact mseq_re12_hi e g ps _ rest gs (by decide) (hfail _ (by decide)) hsucc

theorem step_pad2_31 (e : List Char → Bool) (g : Bool) (ps : List (Bool × Rx))
    (n : Nat) (rest : List Char) (gs : List (List Char)) (h1 : 1 ≤ n) (h2 : n ≤ 31)
    (hfail : ∀ b2 ∈ ['0', '1'], matchSeqEnd e ps (b2 :: rest) = none)
    (hsucc : matchSeqEnd e ps rest = some gs) :
    matchSeqEnd e ((g, rx_0_to_31) :: ps) (padNum 2 n ++ rest) =
      some (if g then padNum 2 n :: gs else gs) := by
  interval_cases n <;>
    first
      | exact mseq_re31_lo e g ps _ _ rest gs (by decide) (by decide) (by decide)
          (by decide) hsucc
      | exact mseq_re31_hi e g ps _ rest gs (by decide) (hfail _ (by decide)) hsucc

theorem step_pad4_year (e : List Char → Bool) (g : Bool) (ps : List (Bool × Rx))
    (n : Nat) (rest : List Char) (gs : List (List Char)) (hn : n ≤ 9999)
    (hsucc : matchSeqEnd e ps rest = some gs) :
    matchSeqEnd e ((g, Rx.repCls Cls.digit 4 4) :: ps) (padNum 4 n ++ rest) =
      some (if g then padNum 4 n :: gs else gs) := by
  obtain ⟨hl, hd, _⟩ := pad4_facts n (by omega)
  exact mseq_rep e g 4 ps _ rest gs (by decide) hl hd hsucc

/-- The compiled parts of the ISO-like specification. -/
theorem dfISO_parts : dfISO.parts =
    [(true, Rx.repCls Cls.digit 4 4), (false, Rx.lit '-'), (true, rx_0_to_12),
     (false, Rx.lit '-'), (true, rx_0_to_31), (false, Rx.plusLazyCls Cls.space),
     (true, rx_0_to_24), (false, Rx.lit ':'), (true, rx_0_to_60),
     (false, Rx.lit ':'), (true, rx_0_to_60)] := by decide

/-- The canonical rendering of a value under the ISO-like specification. -/
def isoRender (y mo d h mi s : Nat) : List Char :=
  padNum 4 y ++ '-' :: (padNum 2 mo ++ '-' :: (padNum 2 d ++ ' ' ::
    (padNum 2 h ++ ':' :: (padNum 2 mi ++ ':' :: padNum 2 s))))

/-- The compiled pattern of the ISO-like specification matches the canonical
rendering of every in-range value and captures exactly the six zero-padded
fields, in order. -/
theorem dfISO_match (y mo d h mi s : Nat) (hy : y ≤ 9999)
    (hmo1 : 1 ≤ mo) (hmo2 : mo ≤ 12) (hd1 : 1 ≤ d) (hd2 : d ≤ 31)
    (hh : h ≤ 23) (hmi : mi ≤ 59) (hs : s ≤ 59) :
    matchSeqEnd pyEnd dfISO.parts (isoRender y mo d h mi s) =
      some [padNum 4 y, padNum 2 mo, padNum 2 d, padNum 2 h, padNum 2 mi, padNum 2 s] := by
  rw [dfISO_parts]
  have h11 : matchSeqEnd pyEnd ([] : List (Bool × Rx)) [] = some [] := rfl
  have h10 : matchSeqEnd pyEnd [(true, rx_0_to_60)] (padNum 2 s) =
      some [padNum 2 s] := by
    have := step_pad2_60 pyEnd true [] s [] [] (by omega) h11
    simpa using this
  have h9 : matchSeqEnd pyEnd [(false, Rx.lit ':'), (true, rx_0_to_60)]
      (':' :: padNum 2 s) = some [padNum 2 s] := by
    simpa using mseq_lit pyEnd false ':' ':' _ _ _ (by decide) h10
  have h8 : matchSeqEnd pyEnd
      [(true, rx_0_to_60), (false, Rx.lit ':'), (true, rx_0_to_60)]
      (padNum 2 mi ++ ':' :: padNum 2 s) = some [padNum 2 mi, padNum 2 s] := by
    simpa using step_pad2_60 pyEnd true _ mi _ _ (by omega) h9
  have h7 : matchSeqEnd pyEnd
      [(false, Rx.lit ':'), (true, rx_0_to_60), (false, Rx.lit ':'), (true, rx_0_to_60)]
      (':' :: (padNum 2 mi ++ ':' :: padNum 2 s)) = some [padNum 2 mi, padNum 2 s] := by
    simpa using mseq_lit pyEnd false ':' ':' _ _ _ (by decide) h8
  have h6 : matchSeqEnd pyEnd
      [(true, rx_0_to_24), (false, Rx.lit ':'), (true, rx_0_to_60),
       (false, Rx.lit ':'), (true, rx_0_to_60)]
      (padNum 2 h ++ ':' :: (padNum 2 mi ++ ':' :: padNum 2 s)) =
      some [padNum 2 h, padNum 2 mi, padNum 2 s] := by
    have hfail : ∀ b2 ∈ ['0', '1', '2', '3'],
        matchSeqEnd pyEnd
          [(false, Rx.lit ':'), (true, rx_0_to_60), (false, Rx.lit ':'), (true, rx_0_to_60)]
          (b2 :: (':' :: (padNum 2 mi ++ ':' :: padNum 2 s))) = none := by
      intro b2 hb2
      fin_cases hb2 <;> exact mseq_lit_fail pyEnd false ':' _ _ _ (by decide)
    simpa using step_pad2_24 pyEnd true _ h _ _ (by omega) hfail h7
  have h5 : matchSeqEnd pyEnd
      [(false, Rx.plusLazyCls Cls.space), (true, rx_0_to_24), (false, Rx.lit ':'),
       (true, rx_0_to_60), (false, Rx.lit ':'), (true, rx_0_to_60)]
      (' ' :: (padNum 2 h ++ ':' :: (padNum 2 mi ++ ':' :: padNum 2 s))) =
      some [padNum 2 h, padNum 2 mi, padNum 2 s] := by
    have hr : runLen Cls.space
        (padNum 2 h ++ ':' :: (padNum 2 mi ++ ':' :: padNum 2 s)) = 0 := by
      rw [pad2_decomp h (by omega)]
      exact runLen_zero_of_head _ _ _ (digitChar_not_space (h / 10) (by omega))
    simpa using mseq_space pyEnd false ' ' _ _ _ (by decide) hr h6
  have h4 : matchSeqEnd pyEnd
      [(true, rx_0_to_31), (false, Rx.plusLazyCls Cls.space), (true, rx_0_to_24),
       (false, Rx.lit ':'), (true, rx_0_to_60), (false, Rx.lit ':'), (true, rx_0_to_60)]
      (padNum 2 d ++ ' ' :: (padNum 2 h ++ ':' :: (padNum 2 mi ++ ':' :: padNum 2 s))) =
      some [padNum 2 d, padNum 2 h, padNum 2 mi, padNum 2 s] := by
    have hfail : ∀ b2 ∈ ['0', '1'],
        matchSeqEnd pyEnd
          [(false, Rx.plusLazyCls Cls.space), (true, rx_0_to_24), (false, Rx.lit ':'),
           (true, rx_0_to_60), (false, Rx.lit ':'), (true, rx_0_to_60)]
          (b2 :: (' ' :: (padNum 2 h ++ ':' :: (padNum 2 mi ++ ':' :: padNum 2 s)))) =
          none := by
      intro b2 hb2
      fin_cases hb2 <;> exact mseq_space_fail pyEnd false _ _ _ (by decide)
    simpa using step_pad2_31 pyEnd true _ d _ _ (by omega) (by omega) hfail h5
  have h3 : matchSeqEnd pyEnd
      [(false, Rx.lit '-'), (true, rx_0_to_31), (false, Rx.plusLazyCls Cls.space),
       (true, rx_0_to_24), (false, Rx.lit ':'), (true, rx_0_to_60),
       (false, Rx.lit ':'), (true, rx_0_to_60)]
      ('-' :: (padNum 2 d ++ ' ' ::
        (padNum 2 h ++ ':' :: (padNum 2 mi ++ ':' :: padNum 2 s)))) =
      some [padNum 2 d, padNum 2 h, padNum 2 mi, padNum 2 s] := by
    simpa using mseq_lit pyEnd false '-' '-' _ _ _ (by decide) h4
  have h2 : matchSeqEnd pyEnd
      [(true, rx_0_to_12), (false, Rx.lit '-'), (true, rx_0_to_31),
       (false, Rx.plusLazyCls Cls.space), (true, rx_0_to_24), (false, Rx.lit ':'),
       (true, rx_0_to_60), (false, Rx.lit ':'), (true, rx_0_to_60)]
      (padNum 2 mo ++ '-' :: (padNum 2 d ++ ' ' ::
        (padNum 2 h ++ ':' :: (padNum 2 mi ++ ':' :: padNum 2 s)))) =
      some [padNum 2 mo, padNum 2 d, padNum 2 h, padNum 2 mi, padNum 2 s] := by
    have hfail : ∀ b2 ∈ ['0', '1', '2'],
        matchSeqEnd pyEnd
          [(false, Rx.lit '-'), (true, rx_0_to_31), (false, Rx.plusLazyCls Cls.space),
           (true, rx_0_to_24), (false, Rx.lit ':'), (true, rx_0_to_60),
           (false, Rx.lit ':'), (true, rx_0_to_60)]
          (b2 :: ('-' :: (padNum 2 d ++ ' ' ::
            (padNum 2 h ++ ':' :: (padNum 2 mi ++ ':' :: padNum 2 s))))) = none := by
      intro b2 hb2
      fin_cases hb2 <;> exact mseq_lit_fail pyEnd false '-' _ _ _ (by decide)
    simpa using step_pad2_12 pyEnd true _ mo _ _ (by omega) (by omega) hfail h3
  have h1 : matchSeqEnd pyEnd
      [(false, Rx.lit '-'), (true, rx_0_to_12), (false, Rx.lit '-'), (true, rx_0_to_31),
       (false, Rx.plusLazyCls Cls.space), (true, rx_0_to_24), (false, Rx.lit ':'),
       (true, rx_0_to_60), (false, Rx.lit ':'), (true, rx_0_to_60)]
      ('-' :: (padNum 2 mo ++ '-' :: (padNum 2 d ++ ' ' ::
        (padNum 2 h ++ ':' :: (padNum 2 mi ++ ':' :: padNum 2 s))))) =
      some [padNum 2 mo, padNum 2 d, padNum 2 h, padNum 2 mi, padNum 2 s] := by
    simpa using mseq_lit pyEnd false '-' '-' _ _ _ (by decide) h2
  show matchSeqEnd pyEnd _ (padNum 4 y ++ '-' :: (padNum 2 mo ++ '-' ::
    (padNum 2 d ++ ' ' :: (padNum 2 h ++ ':' :: (padNum 2 mi ++ ':' :: padNum 2 s))))) = _
  simpa using step_pad4_year pyEnd true _ y _ _ hy h1

theorem daysInMonth_le_31 (y m : Nat) : daysInMonth y m ≤ 31 := by
  unfold daysInMonth
  split
  · split <;> omega
  · split <;> omega

/-- Assigning the six captured groups of the ISO-like specification to the
context overwrites the seeded date and sets the clock fields. -/
theorem dfISO_applyValues (today : Today) (p4 pa pb pc pd pe : List Char) :
    applyValues dfISO.re_tokens [p4, pa, pb, pc, pd, pe] (initContext today) =
      .ok { year := digitsToNat p4, month := digitsToNat pa, day := digitsToNat pb,
            hour := some (digitsToNat pc), minute := some (digitsToNat pd),
            second := some (digitsToNat pe), microsecond := none, is_pm := none,
            tzinfo := none } := rfl

theorem dfISO_chain : dfISO.parse_chain = [ChainItem.materialize] := by decide

/-- C1 (amended): for the all-lossless specification YYYY-MM-DD hh:mm:ss,
parse after format is the identity on every value in the valid domain
(microsecond zero, no timezone, in-range calendar fields), under any current
date and provider; and format after parse is the identity on every
canonical (format-image) string.  The claim fails only for matching strings
that are not canonical renderings (see the counterexample): the value
sub-patterns also accept unpadded digits, which format re-pads. -/
theorem C1_roundtrip (localize : String → DateTime → DateTime) (today : Today)
    (y mo d h mi s : Nat) (hy1 : 1 ≤ y) (hy2 : y ≤ 9999) (hmo1 : 1 ≤ mo)
    (hmo2 : mo ≤ 12) (hd1 : 1 ≤ d) (hd2 : d ≤ daysInMonth y mo) (hh : h ≤ 23)
    (hmi : mi ≤ 59) (hs : s ≤ 59) :
    dfISO.format ⟨y, mo, d, h, mi, s, 0, none⟩ =
      .ok (String.mk (isoRender y mo d h mi s)) ∧
    dfISO.parse localize today (String.mk (isoRender y mo d h mi s)) =
      .ok (some ⟨y, mo, d, h, mi, s, 0, none⟩) ∧
    (dfISO.parse localize today (String.mk (isoRender y mo d h mi s))).map
        (Option.map dfISO.format) =
      .ok (some (.ok (String.mk (isoRender y mo d h mi s)))) := by
  have hd31 : d ≤ 31 := le_trans hd2 (daysInMonth_le_31 y mo)
  have hfmt0 : dfISO.format ⟨y, mo, d, h, mi, s, 0, none⟩ =
      .ok (String.mk ([padNum 4 y, ['-'], padNum 2 mo, ['-'], padNum 2 d, [' '],
        padNum 2 h, [':'], padNum 2 mi, [':'], padNum 2 s].flatten)) := rfl
  have hflat : [padNum 4 y, ['-'], padNum 2 mo, ['-'], padNum 2 d, [' '], padNum 2 h,
      [':'], padNum 2 mi, [':'], padNum 2 s].flatten = isoRender y mo d h mi s := by
    simp [isoRender]
  have hfmt : dfISO.format ⟨y, mo, d, h, mi, s, 0, none⟩ =
      .ok (String.mk (isoRender y mo d h mi s)) := by
    rw [hfmt0, hflat]
  have hmm : dfISO.parserMatch (String.mk (isoRender y mo d h mi s)).data =
      some [padNum 4 y, padNum 2 mo, padNum 2 d, padNum 2 h, padNum 2 mi, padNum 2 s] :=
    dfISO_match y mo d h mi s hy2 hmo1 hmo2 hd1 hd31 hh hmi hs
  have hv4 : digitsToNat (padNum 4 y) = y := (pad4_facts y (by omega)).2.2
  have hvmo : digitsToNat (padNum 2 mo) = mo := pad2_value mo (by omega)
  have hvd : digitsToNat (padNum 2 d) = d := pad2_value d (by omega)
  have hvh : digitsToNat (padNum 2 h) = h := pad2_value h (by omega)
  have hvmi : digitsToNat (padNum 2 mi) = mi := pad2_value mi (by omega)
  have hvs : digitsToNat (padNum 2 s) = s := pad2_value s (by omega)
  have hparse : dfISO.parse localize today (String.mk (isoRender y mo d h mi s)) =
      .ok (some ⟨y, mo, d, h, mi, s, 0, none⟩) := by
    simp only [DateFormat.parse, hmm]
    show Except.bind (applyValues dfISO.re_tokens
        [padNum 4 y, padNum 2 mo, padNum 2 d, padNum 2 h, padNum 2 mi, padNum 2 s]
        (initContext today))
      (fun ctx => runChain localize dfISO.parse_chain ctx none) = _
    rw [dfISO_applyValues, hv4, hvmo, hvd, hvh, hvmi, hvs]
    show runChain localize dfISO.parse_chain
      { year := y, month := mo, day := d, hour := some h, minute := some mi,
        second := some s, microsecond := none, is_pm := none, tzinfo := none } none = _
    rw [dfISO_chain]
    show Except.bind (mkDatetime
      { year := y, month := mo, day := d, hour := some h, minute := some mi,
        second := some s, microsecond := none, is_pm := none, tzinfo := none })
      (fun dt => runChain localize [] _ (some dt)) = _
    simp only [mkDatetime]
    split
    · rfl
    · next hcon =>
      apply absurd _ hcon
      simp only [Option.getD_some, Option.getD_none]
      exact ⟨hy1, hy2, hmo1, hmo2, hd1, hd2, hh, hmi, hs, by omega⟩
  refine ⟨hfmt, hparse, ?_⟩
  rw [hparse]
  show Except.ok (Option.map dfISO.format (some ⟨y, mo, d, h, mi, s, 0, none⟩)) = _
  rw [Option.map_some', hfmt]

/-- Witness for C1 at the leap-day value 2020-02-29 23:59:59. -/
theorem C1_roundtrip_witness :
    dfISO.format ⟨2020, 2, 29, 23, 59, 59, 0, none⟩ =
      .ok (String.mk (isoRender 2020 2 29 23 59 59)) ∧
    dfISO.parse noLocalize today0 (String.mk (isoRender 2020 2 29 23 59 59)) =
      .ok (some ⟨2020, 2, 29, 23, 59, 59, 0, none⟩) ∧
    (dfISO.parse noLocalize today0 (String.mk (isoRender 2020 2 29 23 59 59))).map
        (Option.map dfISO.format) =
      .ok (some (.ok (String.mk (isoRender 2020 2 29 23 59 59)))) :=
  C1_roundtrip noLocalize today0 2020 2 29 23 59 59 (by decide) (by decide) (by decide)
    (by decide) (by decide) (by decide) (by decide) (by decide) (by decide)
